import Mathlib

/-!
Verification of the mux.js TS/AAC → fMP4 transmuxer core.

Shallow embedding of the pipeline stages of this repository:
* `TransportPacketStream` (src/unnamed/part_002): byte chunks → 188-byte TS packets;
* `TransportParseStream`  (src/unnamed/part_002): TS packets → PAT/PMT/PES events;
* `ElementaryStream`      (src/unnamed/part_002): PES fragment assembly, `parsePes`;
* `TimestampRolloverStream` and `handleRollover` (src/unnamed/part_003);
* `AdtsStream`            (src/lib/codecs/index.js): PES audio → AAC frames;
* `AacStream`             (src/lib/aac/index.js): raw AAC bytes → ID3/ADTS chunks;
* `VideoSegmentStream`    (src/lib/partial/transmuxer.js): NAL units → moof/mdat pairs.

Bytes are modelled as `Nat` values (< 256 where it matters), byte buffers as
`List Nat`, JavaScript numbers holding timestamps as `Int` (their use here is
exact integer arithmetic), and JavaScript's 32-bit signed bitwise coercion is
modelled explicitly (`jsToInt32`) where the source relies on it.
-/

namespace MuxJs

/-! ### JavaScript 32-bit coercion

JavaScript bitwise operators (`&`, `|`, `<<`) coerce their operands and result
with ToInt32: reduce mod 2^32 into the range [-2^31, 2^31).  `Int.bmod x 2^32`
is exactly that balanced representative.  `>>>` uses ToUint32 instead. -/

def jsToInt32 (x : Int) : Int :=
  if x % 4294967296 < 2147483648 then x % 4294967296
  else x % 4294967296 - 4294967296

def jsToUint32 (x : Int) : Int := x % 4294967296

/-- JavaScript `x & y`. -/
def jsAnd (x y : Int) : Int := jsToInt32 (Int.land (jsToInt32 x) (jsToInt32 y))

/-- JavaScript `x | y`. -/
def jsOr (x y : Int) : Int := jsToInt32 (Int.lor (jsToInt32 x) (jsToInt32 y))

/-- JavaScript `x << n` for a literal shift 0 ≤ n < 32. -/
def jsShl (x : Int) (n : Nat) : Int := jsToInt32 (jsToInt32 x * 2 ^ n)

/-- JavaScript `x >>> n` for a literal shift 0 ≤ n < 32. -/
def jsShrU (x : Int) (n : Nat) : Int := jsToUint32 x / 2 ^ n

theorem jsToInt32_eq_self {x : Int} (h0 : 0 ≤ x) (h1 : x < 2147483648) :
    jsToInt32 x = x := by
  unfold jsToInt32
  split <;> omega

theorem jsToUint32_eq_self {x : Int} (h0 : 0 ≤ x) (h1 : x < 4294967296) :
    jsToUint32 x = x := by
  unfold jsToUint32
  omega

theorem jsAnd_eq_natAnd {a b : Nat} (ha : a < 2147483648) (hb : b < 2147483648) :
    jsAnd (a : Int) (b : Int) = ((a &&& b : Nat) : Int) := by
  unfold jsAnd
  rw [jsToInt32_eq_self (x := (a : Int)) (by omega) (by omega),
      jsToInt32_eq_self (x := (b : Int)) (by omega) (by omega)]
  have hland : Int.land (a : Int) (b : Int) = ((a &&& b : Nat) : Int) := rfl
  rw [hland]
  refine jsToInt32_eq_self (by omega) ?_
  have : (a &&& b) ≤ a := Nat.and_le_left
  omega

theorem jsOr_eq_natOr {a b : Nat} (ha : a < 2147483648) (hb : b < 2147483648) :
    jsOr (a : Int) (b : Int) = ((a ||| b : Nat) : Int) := by
  unfold jsOr
  rw [jsToInt32_eq_self (x := (a : Int)) (by omega) (by omega),
      jsToInt32_eq_self (x := (b : Int)) (by omega) (by omega)]
  have hlor : Int.lor (a : Int) (b : Int) = ((a ||| b : Nat) : Int) := rfl
  rw [hlor]
  refine jsToInt32_eq_self (by omega) ?_
  have h31 : (2 : Nat) ^ 31 = 2147483648 := by norm_num
  have := Nat.or_lt_two_pow (x := a) (y := b) (n := 31) (by omega) (by omega)
  omega

theorem jsShl_eq_natShl {a : Nat} {n : Nat} (ha : a < 2147483648)
    (hres : a * 2 ^ n < 2147483648) :
    jsShl (a : Int) n = ((a <<< n : Nat) : Int) := by
  unfold jsShl
  rw [jsToInt32_eq_self (x := (a : Int)) (by omega) (by omega)]
  have hcast : (a : Int) * 2 ^ n = ((a * 2 ^ n : Nat) : Int) := by push_cast; ring
  rw [hcast, jsToInt32_eq_self (by omega) (by exact_mod_cast hres), Nat.shiftLeft_eq]

theorem jsShrU_eq_natShr {a : Nat} {n : Nat} (ha : a < 4294967296) :
    jsShrU (a : Int) n = ((a >>> n : Nat) : Int) := by
  unfold jsShrU
  rw [jsToUint32_eq_self (by omega) (by omega), Nat.shiftRight_eq_div_pow]
  have h2 : ((2 : Int)) ^ n = ((2 ^ n : Nat) : Int) := by push_cast; ring
  rw [h2, ← Int.natCast_div]

/-! ### TransportPacketStream (src/unnamed/part_002, lines 26–105)

State: the ≤ 188 carried-over bytes (`buffer`/`bytesInBuffer` in the source,
represented as the list of the carried bytes).  `push` prepends the carry to
the incoming chunk and scans for pairs of sync bytes 188 apart. -/

def MP2T_PACKET_LENGTH : Nat := 188

def SYNC_BYTE : Nat := 0x47

/-- The scanning loop of `TransportPacketStream.push`: walk `startIndex`
(`endIndex` is always `startIndex + 188`); emit a 188-byte slice when both
boundaries carry the sync byte, otherwise resynchronise one byte at a time.
Returns the emitted packets and the final `startIndex`. -/
def tpsScan (e : List Nat) (startIndex : Nat) :
    List (List Nat) × Nat :=
  if _h : startIndex + MP2T_PACKET_LENGTH < e.length then
    if e.getD startIndex 0 = SYNC_BYTE ∧
       e.getD (startIndex + MP2T_PACKET_LENGTH) 0 = SYNC_BYTE then
      let rest := tpsScan e (startIndex + MP2T_PACKET_LENGTH)
      (((e.drop startIndex).take MP2T_PACKET_LENGTH) :: rest.1, rest.2)
    else
      tpsScan e (startIndex + 1)
  else
    ([], startIndex)
termination_by e.length - startIndex
decreasing_by
  all_goals (unfold MP2T_PACKET_LENGTH at *; omega)

/-- `TransportPacketStream.push`: returns emitted packets and the new carry. -/
def tpsPush (carry : List Nat) (bytes : List Nat) :
    List (List Nat) × List Nat :=
  ((tpsScan (carry ++ bytes) 0).1,
   (carry ++ bytes).drop (tpsScan (carry ++ bytes) 0).2)

/-- `TransportPacketStream.flush`: emit the carry iff it is a whole packet
starting with the sync byte; the carry is emptied exactly in that case. -/
def tpsFlush (carry : List Nat) : List (List Nat) × List Nat :=
  if carry.length = MP2T_PACKET_LENGTH ∧ carry.getD 0 0 = SYNC_BYTE then
    ([carry], [])
  else
    ([], carry)

theorem tpsScan_lower (everything : List Nat) (startIndex : Nat) :
    everything.length ≤ (tpsScan everything startIndex).2 + MP2T_PACKET_LENGTH := by
  induction startIndex using tpsScan.induct (e := everything) with
  | case1 s hdlt hsync ih =>
    rw [tpsScan, dif_pos hdlt, if_pos hsync]
    exact ih
  | case2 s hdlt hnsync ih =>
    rw [tpsScan, dif_pos hdlt, if_neg hnsync]
    exact ih
  | case3 s hge =>
    rw [tpsScan, dif_neg hge]
    omega

theorem tpsScan_le_length (everything : List Nat) (startIndex : Nat)
    (h : startIndex ≤ everything.length) :
    (tpsScan everything startIndex).2 ≤ everything.length := by
  induction startIndex using tpsScan.induct (e := everything) with
  | case1 s hdlt hsync ih =>
    rw [tpsScan, dif_pos hdlt, if_pos hsync]
    exact ih (by omega)
  | case2 s hdlt hnsync ih =>
    rw [tpsScan, dif_pos hdlt, if_neg hnsync]
    exact ih (by unfold MP2T_PACKET_LENGTH at hdlt; omega)
  | case3 s hge =>
    rw [tpsScan, dif_neg hge]
    exact h

theorem getD_append_left {x y : List Nat} {n : Nat} (h : n < x.length) :
    (x ++ y).getD n 0 = x.getD n 0 := by
  simp [List.getD_eq_getElem?_getD, List.getElem?_append_left h]

theorem getD_drop (ev : List Nat) (k j : Nat) :
    (ev.drop k).getD j 0 = ev.getD (k + j) 0 := by
  simp [List.getD_eq_getElem?_getD, List.getElem?_drop]

/-- Scanning an extended buffer first produces exactly the packets of the
shorter buffer, then continues from where that scan stopped. -/
theorem tpsScan_append (x y : List Nat) (s : Nat) :
    (tpsScan (x ++ y) s).1
      = (tpsScan x s).1 ++ (tpsScan (x ++ y) (tpsScan x s).2).1
  ∧ (tpsScan (x ++ y) s).2 = (tpsScan (x ++ y) (tpsScan x s).2).2 := by
  induction s using tpsScan.induct (e := x) with
  | case1 s hdlt hsync ih =>
    have hxy : s + MP2T_PACKET_LENGTH < (x ++ y).length := by
      rw [List.length_append]; omega
    have hg1 : (x ++ y).getD s 0 = SYNC_BYTE := by
      rw [getD_append_left (by omega)]; exact hsync.1
    have hg2 : (x ++ y).getD (s + MP2T_PACKET_LENGTH) 0 = SYNC_BYTE := by
      rw [getD_append_left (by omega)]; exact hsync.2
    have hslice : ((x ++ y).drop s).take MP2T_PACKET_LENGTH
        = (x.drop s).take MP2T_PACKET_LENGTH := by
      rw [List.drop_append_of_le_length (by omega),
          List.take_append_of_le_length (by rw [List.length_drop]; omega)]
    have hx : tpsScan x s
        = ((x.drop s).take MP2T_PACKET_LENGTH :: (tpsScan x (s + MP2T_PACKET_LENGTH)).1,
           (tpsScan x (s + MP2T_PACKET_LENGTH)).2) := by
      rw [tpsScan, dif_pos hdlt, if_pos hsync]
    have hxyu : tpsScan (x ++ y) s
        = (((x ++ y).drop s).take MP2T_PACKET_LENGTH
            :: (tpsScan (x ++ y) (s + MP2T_PACKET_LENGTH)).1,
           (tpsScan (x ++ y) (s + MP2T_PACKET_LENGTH)).2) := by
      rw [tpsScan, dif_pos hxy, if_pos ⟨hg1, hg2⟩]
    rw [hx, hxyu, hslice]
    exact ⟨by rw [List.cons_append, ih.1], ih.2⟩
  | case2 s hdlt hnsync ih =>
    have hxy : s + MP2T_PACKET_LENGTH < (x ++ y).length := by
      rw [List.length_append]; omega
    have hns : ¬((x ++ y).getD s 0 = SYNC_BYTE ∧
        (x ++ y).getD (s + MP2T_PACKET_LENGTH) 0 = SYNC_BYTE) := by
      rw [getD_append_left (show s < x.length by omega),
          getD_append_left (show s + MP2T_PACKET_LENGTH < x.length by omega)]
      exact hnsync
    have hx : tpsScan x s = tpsScan x (s + 1) := by
      rw [tpsScan, dif_pos hdlt, if_neg hnsync]
    have hxyu : tpsScan (x ++ y) s = tpsScan (x ++ y) (s + 1) := by
      rw [tpsScan, dif_pos hxy, if_neg hns]
    rw [hx, hxyu]
    exact ih
  | case3 s hge =>
    have hx : tpsScan x s = ([], s) := by rw [tpsScan, dif_neg hge]
    rw [hx]
    exact ⟨by simp, rfl⟩

/-- Scanning from an offset is the same as scanning the dropped buffer. -/
theorem tpsScan_drop (ev : List Nat) (k s : Nat) :
    (tpsScan ev (k + s)).1 = (tpsScan (ev.drop k) s).1
  ∧ (tpsScan ev (k + s)).2 = k + (tpsScan (ev.drop k) s).2 := by
  induction s using tpsScan.induct (e := ev.drop k) with
  | case1 s hdlt hsync ih =>
    have hlen : k + s + MP2T_PACKET_LENGTH < ev.length := by
      rw [List.length_drop] at hdlt; omega
    have hg1 : ev.getD (k + s) 0 = SYNC_BYTE := by
      rw [← getD_drop]; exact hsync.1
    have hg2 : ev.getD (k + s + MP2T_PACKET_LENGTH) 0 = SYNC_BYTE := by
      rw [show k + s + MP2T_PACKET_LENGTH = k + (s + MP2T_PACKET_LENGTH) by omega,
          ← getD_drop]
      exact hsync.2
    have hslice : (ev.drop (k + s)).take MP2T_PACKET_LENGTH
        = ((ev.drop k).drop s).take MP2T_PACKET_LENGTH := by
      rw [List.drop_drop]
    have hd : tpsScan (ev.drop k) s
        = (((ev.drop k).drop s).take MP2T_PACKET_LENGTH
            :: (tpsScan (ev.drop k) (s + MP2T_PACKET_LENGTH)).1,
           (tpsScan (ev.drop k) (s + MP2T_PACKET_LENGTH)).2) := by
      rw [tpsScan, dif_pos hdlt, if_pos hsync]
    have he : tpsScan ev (k + s)
        = ((ev.drop (k + s)).take MP2T_PACKET_LENGTH
            :: (tpsScan ev (k + s + MP2T_PACKET_LENGTH)).1,
           (tpsScan ev (k + s + MP2T_PACKET_LENGTH)).2) := by
      rw [tpsScan, dif_pos hlen, if_pos ⟨hg1, hg2⟩]
    rw [hd, he, hslice]
    have harg : k + s + MP2T_PACKET_LENGTH = k + (s + MP2T_PACKET_LENGTH) := by omega
    rw [harg]
    exact ⟨by rw [ih.1], by rw [ih.2]⟩
  | case2 s hdlt hnsync ih =>
    have hlen : k + s + MP2T_PACKET_LENGTH < ev.length := by
      rw [List.length_drop] at hdlt; omega
    have hns : ¬(ev.getD (k + s) 0 = SYNC_BYTE ∧
        ev.getD (k + s + MP2T_PACKET_LENGTH) 0 = SYNC_BYTE) := by
      rw [show k + s + MP2T_PACKET_LENGTH = k + (s + MP2T_PACKET_LENGTH) by omega,
          ← getD_drop, ← getD_drop]
      exact hnsync
    have hd : tpsScan (ev.drop k) s = tpsScan (ev.drop k) (s + 1) := by
      rw [tpsScan, dif_pos hdlt, if_neg hnsync]
    have he : tpsScan ev (k + s) = tpsScan ev (k + s + 1) := by
      rw [tpsScan, dif_pos hlen, if_neg hns]
    rw [hd, he, show k + s + 1 = k + (s + 1) by omega]
    exact ih
  | case3 s hge =>
    have hlen : ¬(k + s + MP2T_PACKET_LENGTH < ev.length) := by
      rw [List.length_drop] at hge; omega
    have hd : tpsScan (ev.drop k) s = ([], s) := by rw [tpsScan, dif_neg hge]
    have he : tpsScan ev (k + s) = ([], k + s) := by rw [tpsScan, dif_neg hlen]
    rw [hd, he]
    exact ⟨rfl, rfl⟩

/-- Feeding `b ++ c` in one push is the same as pushing `b`, then `c`. -/
theorem tpsPush_append (carry b c : List Nat) :
    (tpsPush carry (b ++ c)).1
      = (tpsPush carry b).1 ++ (tpsPush (tpsPush carry b).2 c).1
  ∧ (tpsPush carry (b ++ c)).2 = (tpsPush (tpsPush carry b).2 c).2 := by
  have hassoc : carry ++ (b ++ c) = (carry ++ b) ++ c := by
    rw [List.append_assoc]
  have hs := tpsScan_le_length (carry ++ b) 0 (by omega)
  have happ := tpsScan_append (carry ++ b) c 0
  have hdrop := tpsScan_drop ((carry ++ b) ++ c) (tpsScan (carry ++ b) 0).2 0
  rw [Nat.add_zero] at hdrop
  have hcut : ((carry ++ b) ++ c).drop (tpsScan (carry ++ b) 0).2
      = (carry ++ b).drop (tpsScan (carry ++ b) 0).2 ++ c :=
    List.drop_append_of_le_length hs
  have hpos : (tpsScan ((carry ++ b) ++ c) 0).2
      = (tpsScan (carry ++ b) 0).2
        + (tpsScan ((carry ++ b).drop (tpsScan (carry ++ b) 0).2 ++ c) 0).2 := by
    rw [happ.2, hdrop.2, hcut]
  constructor
  · show (tpsScan (carry ++ (b ++ c)) 0).1 = _
    rw [hassoc, happ.1]
    congr 1
    rw [hdrop.1, hcut]
    rfl
  · show (carry ++ (b ++ c)).drop (tpsScan (carry ++ (b ++ c)) 0).2 = _
    rw [hassoc, hpos, ← List.drop_drop, hcut]
    rfl

/-- Pushing a list of chunks in sequence, accumulating emitted packets. -/
def tpsRun (carry : List Nat) : List (List Nat) → List (List Nat) × List Nat
  | [] => ([], carry)
  | b :: bs =>
    ((tpsPush carry b).1 ++ (tpsRun (tpsPush carry b).2 bs).1,
     (tpsRun (tpsPush carry b).2 bs).2)

theorem tpsPush_nil (carry : List Nat) (h : carry.length ≤ 188) :
    tpsPush carry [] = ([], carry) := by
  have hscan : tpsScan (carry ++ []) 0 = ([], 0) := by
    rw [tpsScan, dif_neg]
    rw [List.append_nil]
    unfold MP2T_PACKET_LENGTH
    omega
  unfold tpsPush
  rw [hscan]
  simp

theorem tpsPush_carry_le' (carry bytes : List Nat) :
    (tpsPush carry bytes).2.length ≤ 188 := by
  unfold tpsPush
  simp only [List.length_drop]
  have := tpsScan_lower (carry ++ bytes) 0
  unfold MP2T_PACKET_LENGTH at this
  omega

/-- Chunk invariance of the packet splitter: any splitting of the byte
stream yields the same packets and the same final carry as one big push. -/
theorem tpsRun_eq_join (carry : List Nat) (chunks : List (List Nat))
    (h : carry.length ≤ 188) :
    tpsRun carry chunks = tpsRun carry [chunks.flatten] := by
  induction chunks generalizing carry with
  | nil =>
    show ([], carry) = _
    unfold tpsRun
    rw [List.flatten_nil, tpsPush_nil carry h]
    simp [tpsRun]
  | cons b bs ih =>
    show ((tpsPush carry b).1 ++ (tpsRun (tpsPush carry b).2 bs).1,
          (tpsRun (tpsPush carry b).2 bs).2) = _
    rw [ih (tpsPush carry b).2 (tpsPush_carry_le' carry b)]
    have hcomp := tpsPush_append carry b bs.flatten
    show _ = ((tpsPush carry (b :: bs).flatten).1
        ++ (tpsRun (tpsPush carry (b :: bs).flatten).2 []).1,
      (tpsRun (tpsPush carry (b :: bs).flatten).2 []).2)
    rw [List.flatten_cons]
    show _ = ((tpsPush carry (b ++ bs.flatten)).1 ++ [],
              (tpsPush carry (b ++ bs.flatten)).2)
    rw [hcomp.1, hcomp.2, List.append_nil]
    show ((tpsPush carry b).1 ++ ((tpsPush (tpsPush carry b).2 bs.flatten).1
        ++ (tpsRun (tpsPush (tpsPush carry b).2 bs.flatten).2 []).1),
      (tpsRun (tpsPush (tpsPush carry b).2 bs.flatten).2 []).2) = _
    show ((tpsPush carry b).1 ++ ((tpsPush (tpsPush carry b).2 bs.flatten).1 ++ []),
      (tpsPush (tpsPush carry b).2 bs.flatten).2) = _
    rw [List.append_nil]

/-- The packets produced by a full cycle: a sequence of pushes, then `flush`. -/
def tpsPackets (chunks : List (List Nat)) : List (List Nat) :=
  (tpsRun [] chunks).1 ++ (tpsFlush (tpsRun [] chunks).2).1

/-- **C10.** After every `push`, at most 188 unconsumed bytes remain in the
carry, so the copy into the fixed 188-byte carry buffer is in bounds. -/
theorem tpsPush_carry_le (carry bytes : List Nat) :
    (tpsPush carry bytes).2.length ≤ 188 := by
  unfold tpsPush
  simp only [List.length_drop]
  have := tpsScan_lower (carry ++ bytes) 0
  unfold MP2T_PACKET_LENGTH at this
  omega

/-! ### Stream type constants (src/unnamed/part_001) -/

def H264_STREAM_TYPE : Nat := 0x1B

def ADTS_STREAM_TYPE : Nat := 0x0F

def METADATA_STREAM_TYPE : Nat := 0x15

/-! ### TransportParseStream (src/unnamed/part_002, lines 112–284)

Parses each 188-byte TS packet: PID extraction, adaptation-field skip,
PAT/PMT parsing, and PES tagging.  Packets seen before any PMT are queued in
`packetsWaitingForPmt` and drained when the PMT arrives. -/

structure ProgramMapTable where
  video : Option Nat
  audio : Option Nat
  /-- `timed-metadata` PID → stream type map; later entries overwrite earlier
  ones, so it is stored most-recent-first and looked up by first match. -/
  timedMetadata : List (Nat × Nat)
deriving DecidableEq

def emptyPmt : ProgramMapTable := ⟨none, none, []⟩

/-- The PSI pointer-field skip at the head of `parsePsi`. -/
def psiPayload (payload : List Nat) (pusi : Bool) : List Nat :=
  if pusi then payload.drop (payload.getD 0 0 + 1) else payload

/-- `parsePat`: the PMT PID from bytes 10–11 of the PAT section. -/
def parsePat (payload : List Nat) : Nat :=
  (payload.getD 10 0 &&& 0x1F) <<< 8 ||| payload.getD 11 0

/-- The elementary-stream descriptor loop of `parsePmt`. -/
def parsePmtLoop (payload : List Nat) (tableEnd : Nat) (offset : Nat)
    (acc : ProgramMapTable) : ProgramMapTable :=
  if offset < tableEnd then
    let streamType := payload.getD offset 0
    let pid := (payload.getD (offset + 1) 0 &&& 0x1F) <<< 8 ||| payload.getD (offset + 2) 0
    let acc' :=
      if streamType = H264_STREAM_TYPE ∧ acc.video = none then
        { acc with video := some pid }
      else if streamType = ADTS_STREAM_TYPE ∧ acc.audio = none then
        { acc with audio := some pid }
      else if streamType = METADATA_STREAM_TYPE then
        { acc with timedMetadata := (pid, streamType) :: acc.timedMetadata }
      else acc
    parsePmtLoop payload tableEnd
      (offset + ((payload.getD (offset + 3) 0 &&& 0x0F) <<< 8 ||| payload.getD (offset + 4) 0) + 5)
      acc'
  else acc
termination_by tableEnd - offset
decreasing_by omega

/-- `parsePmt`: `none` when the current-next indicator marks a forward
declaration (the source returns early and records nothing). -/
def parsePmt (payload : List Nat) : Option ProgramMapTable :=
  if payload.getD 5 0 &&& 0x01 = 0 then none
  else
    let sectionLength := (payload.getD 1 0 &&& 0x0F) <<< 8 ||| payload.getD 2 0
    let tableEnd := 3 + sectionLength - 4
    let programInfoLength := (payload.getD 10 0 &&& 0x0F) <<< 8 ||| payload.getD 11 0
    some (parsePmtLoop payload tableEnd (12 + programInfoLength) emptyPmt)

/-- Events emitted by `TransportParseStream` (the fields the downstream
`ElementaryStream` consumes).  A `pmt` event carries the table recorded on the
event by `parsePmt` (absent for a forward declaration). -/
inductive TsEvent where
  | pat : TsEvent
  | pmt (table : Option ProgramMapTable) : TsEvent
  | pes (pid : Nat) (pusi : Bool) (streamType : Option Nat) (data : List Nat) : TsEvent
deriving DecidableEq

/-- `processPes_`: assign a stream type from the program map table and strip
the TS header. -/
def processPes (table : ProgramMapTable) (packet : List Nat) (offset pid : Nat)
    (pusi : Bool) : TsEvent :=
  let streamType : Option Nat :=
    if table.video = some pid then some H264_STREAM_TYPE
    else if table.audio = some pid then some ADTS_STREAM_TYPE
    else (table.timedMetadata.find? (fun q => q.1 = pid)).map Prod.snd
  TsEvent.pes pid pusi streamType (packet.drop offset)

structure TppState where
  pmtPid : Option Nat
  programMapTable : Option ProgramMapTable
  /-- deferred packets: (packet bytes, payload offset, pid, payload-unit-start). -/
  packetsWaitingForPmt : List (List Nat × Nat × Nat × Bool)
deriving DecidableEq

def initTpp : TppState := ⟨none, none, []⟩

/-- `TransportParseStream.push` for one 188-byte packet.  The unreachable
`undefined.video` access of the source (a PES draining before any table is
recorded, which would throw in JavaScript) is modelled with the empty table. -/
def tppPush (st : TppState) (packet : List Nat) : List TsEvent × TppState :=
  let pusi : Bool := packet.getD 1 0 &&& 0x40 != 0
  let pid := (packet.getD 1 0 &&& 0x1F) <<< 8 ||| packet.getD 2 0
  let offset := if (packet.getD 3 0 &&& 0x30) >>> 4 > 0x01
    then 4 + packet.getD 4 0 + 1 else 4
  if pid = 0 then
    ([TsEvent.pat],
     { st with pmtPid := some (parsePat (psiPayload (packet.drop offset) pusi)) })
  else if st.pmtPid = some pid then
    let newTable := parsePmt (psiPayload (packet.drop offset) pusi)
    let table' := match newTable with
      | some t => some t
      | none => st.programMapTable
    let drained := st.packetsWaitingForPmt.map
      (fun w => processPes (table'.getD emptyPmt) w.1 w.2.1 w.2.2.1 w.2.2.2)
    (TsEvent.pmt newTable :: drained,
     { st with programMapTable := table', packetsWaitingForPmt := [] })
  else if st.programMapTable = none then
    ([], { st with packetsWaitingForPmt :=
            st.packetsWaitingForPmt ++ [(packet, offset, pid, pusi)] })
  else
    ([processPes (st.programMapTable.getD emptyPmt) packet offset pid pusi], st)

/-- Fold `tppPush` over a packet list, accumulating emitted events. -/
def tppRun (st : TppState) : List (List Nat) → List TsEvent × TppState
  | [] => ([], st)
  | p :: ps =>
    ((tppPush st p).1 ++ (tppRun (tppPush st p).2 ps).1,
     (tppRun (tppPush st p).2 ps).2)

/-! ### ElementaryStream (src/unnamed/part_002, lines 294–524)

Reassembles PES packets from TS packet payload fragments.  `parsePes` decodes
the assembled PES header; the 33-bit PTS/DTS are recovered with the source's
31-bit bitwise assembly (JavaScript 32-bit semantics, `jsAnd`/`jsOr`/…)
followed by exact `* 4 + low2` number arithmetic. -/

inductive MediaType where
  | video
  | audio
  | timedMetadata
deriving DecidableEq

/-- The 31-most-significant-bits assembly of `parsePes` (payload bytes
`b₉ … b₁₃`), exactly as the source writes it, with JavaScript bitwise
semantics.  The `(… & 0xFF)` masks of the source are kept. -/
def pesTimestampHigh (b9 b10 b11 b12 b13 : Int) : Int :=
  jsOr (jsOr (jsOr (jsOr (jsShl (jsAnd b9 0x0E) 27)
    (jsShl (jsAnd b10 0xFF) 20))
    (jsShl (jsAnd b11 0xFE) 12))
    (jsShl (jsAnd b12 0xFF) 5))
    (jsShrU (jsAnd b13 0xFE) 3)

/-- The full 33-bit timestamp: `high * 4 + ((b₁₃ & 0x06) >>> 1)` in exact
JavaScript number arithmetic. -/
def pesTimestamp (b9 b10 b11 b12 b13 : Int) : Int :=
  pesTimestampHigh b9 b10 b11 b12 b13 * 4 + jsShrU (jsAnd b13 0x06) 1

structure ParsedPes where
  packetLength : Nat
  dataAlignmentIndicator : Bool
  pts : Option Int
  dts : Option Int
  data : List Nat
deriving DecidableEq

/-- `ElementaryStream.parsePes` on the assembled packet bytes. -/
def parsePes (payload : List Nat) : ParsedPes :=
  let packetLength := 6 + ((payload.getD 4 0) <<< 8 ||| payload.getD 5 0)
  let dataAlignmentIndicator := payload.getD 6 0 &&& 0x04 != 0
  let ptsDtsFlags := payload.getD 7 0
  let pd : Option Int × Option Int :=
    if ptsDtsFlags &&& 0xC0 ≠ 0 then
      let pts := pesTimestamp (payload.getD 9 0) (payload.getD 10 0)
        (payload.getD 11 0) (payload.getD 12 0) (payload.getD 13 0)
      let dts :=
        if ptsDtsFlags &&& 0x40 ≠ 0 then
          pesTimestamp (payload.getD 14 0) (payload.getD 15 0)
            (payload.getD 16 0) (payload.getD 17 0) (payload.getD 18 0)
        else pts
      (some pts, some dts)
    else (none, none)
  { packetLength := packetLength
    dataAlignmentIndicator := dataAlignmentIndicator
    pts := pd.1
    dts := pd.2
    data := payload.drop (9 + payload.getD 8 0) }

/-- One of the three per-type fragment buffers: the queued fragments
(track id of the originating TS packet, payload bytes) and the running size. -/
structure EsBuffer where
  data : List (Nat × List Nat)
  size : Nat
deriving DecidableEq

def emptyEsBuffer : EsBuffer := ⟨[], 0⟩

structure PesEvent where
  type : MediaType
  trackId : Nat
  pes : ParsedPes
deriving DecidableEq

inductive EsOut where
  | pes (e : PesEvent)
  /-- the `metadata` event built from a PMT: one `(id, type)` per discovered
  track (codec `avc` for video, `adts` for audio is implied by the type). -/
  | metadata (tracks : List (Nat × MediaType))
deriving DecidableEq

/-- `ElementaryStream.flushStream`: assemble and emit the buffered PES packet.
Emits only when ≥ 9 bytes are buffered and the packet is flushable (video
always; audio / timed-metadata only once `packetLength` bytes accumulated).
The buffer is cleared when flushable or when `forceFlush` is set. -/
def flushStream (buf : EsBuffer) (ty : MediaType) (forceFlush : Bool) :
    Option PesEvent × EsBuffer :=
  if buf.data.length = 0 ∨ buf.size < 9 then (none, buf)
  else
    let packetData := (buf.data.map Prod.snd).flatten
    let parsed := parsePes packetData
    let trackId := (buf.data.headD (0, [])).1
    let packetFlushable := ty = MediaType.video ∨ parsed.packetLength ≤ buf.size
    let buf' := if forceFlush ∨ packetFlushable then emptyEsBuffer else buf
    (if packetFlushable then some ⟨ty, trackId, parsed⟩ else none, buf')

structure EsState where
  video : EsBuffer
  audio : EsBuffer
  timedMetadata : EsBuffer
  programMapTable : Option ProgramMapTable
deriving DecidableEq

def initEs : EsState := ⟨emptyEsBuffer, emptyEsBuffer, emptyEsBuffer, none⟩

def esGetBuffer (st : EsState) : MediaType → EsBuffer
  | MediaType.video => st.video
  | MediaType.audio => st.audio
  | MediaType.timedMetadata => st.timedMetadata

def esSetBuffer (st : EsState) : MediaType → EsBuffer → EsState
  | MediaType.video, b => { st with video := b }
  | MediaType.audio, b => { st with audio := b }
  | MediaType.timedMetadata, b => { st with timedMetadata := b }

/-- The `metadata` event tracks built by the `pmt` branch of
`ElementaryStream.push` (video first, then audio). -/
def pmtTracks (table : ProgramMapTable) : List (Nat × MediaType) :=
  (match table.video with
   | some pid => [(pid, MediaType.video)]
   | none => []) ++
  (match table.audio with
   | some pid => [(pid, MediaType.audio)]
   | none => [])

/-- `ElementaryStream.push` for one parsed TS event. -/
def esPush (st : EsState) (e : TsEvent) : List EsOut × EsState :=
  match e with
  | TsEvent.pat => ([], st)
  | TsEvent.pmt table =>
    ([EsOut.metadata (pmtTracks (table.getD emptyPmt))],
     { st with programMapTable := table })
  | TsEvent.pes pid pusi streamType data =>
    let ty? : Option MediaType :=
      if streamType = some H264_STREAM_TYPE then some MediaType.video
      else if streamType = some ADTS_STREAM_TYPE then some MediaType.audio
      else if streamType = some METADATA_STREAM_TYPE then some MediaType.timedMetadata
      else none
    match ty? with
    | none => ([], st)
    | some ty =>
      let buf := esGetBuffer st ty
      let flushed := if pusi then flushStream buf ty true else (none, buf)
      let buf' := flushed.2
      let buf'' : EsBuffer :=
        ⟨buf'.data ++ [(pid, data)], buf'.size + data.length⟩
      ((flushed.1.map EsOut.pes).toList, esSetBuffer st ty buf'')

/-- `flushStreams_` (invoked by `ElementaryStream.flush`): video first, then
audio, then timed-metadata, without force. -/
def esFlushStreams (st : EsState) : List EsOut × EsState :=
  let v := flushStream st.video MediaType.video false
  let stv := { st with video := v.2 }
  let a := flushStream stv.audio MediaType.audio false
  let sta := { stv with audio := a.2 }
  let m := flushStream sta.timedMetadata MediaType.timedMetadata false
  let stm := { sta with timedMetadata := m.2 }
  ((v.1.map EsOut.pes).toList ++ (a.1.map EsOut.pes).toList
     ++ (m.1.map EsOut.pes).toList, stm)

def esRun (st : EsState) : List TsEvent → List EsOut × EsState
  | [] => ([], st)
  | e :: es =>
    ((esPush st e).1 ++ (esRun (esPush st e).2 es).1,
     (esRun (esPush st e).2 es).2)

/-- The complete TS front end of the pipeline on a sequence of pushed byte
chunks followed by one final `flush`:
`TransportPacketStream → TransportParseStream → ElementaryStream`,
returning every `ElementaryStream` output event in order. -/
def tsPipelineOutputs (chunks : List (List Nat)) : List EsOut :=
  let packets := tpsPackets chunks
  let events := (tppRun initTpp packets).1
  let r := esRun initEs events
  r.1 ++ (esFlushStreams r.2).1

/-- **C2.** For every TS byte stream and every way of splitting it into chunks
fed to successive `push` calls (with the same final `flush`), the TS pipeline
(`TransportPacketStream → TransportParseStream → ElementaryStream`) emits the
identical sequence of PES packets — same bytes in the same order — as feeding
the whole stream in one push. -/
theorem tsPipeline_chunk_invariant (chunks : List (List Nat)) :
    tsPipelineOutputs chunks = tsPipelineOutputs [chunks.flatten] := by
  have h := tpsRun_eq_join [] chunks (by simp)
  unfold tsPipelineOutputs tpsPackets
  rw [h]

/-! ### C5: the 33-bit PTS/DTS recovery of `parsePes` -/

/-- The PTS formula stated by the specification, in exact (untruncated)
natural-number arithmetic:
`((b9 & 0x0E) << 27 | b10 << 20 | (b11 & 0xFE) << 12 | b12 << 5 |
  (b13 & 0xFE) >> 3) * 4 + ((b13 & 0x06) >> 1)`. -/
def ptsFormulaNat (b9 b10 b11 b12 b13 : Nat) : Nat :=
  ((b9 &&& 0x0E) <<< 27 ||| b10 <<< 20 ||| (b11 &&& 0xFE) <<< 12 ||| b12 <<< 5
    ||| (b13 &&& 0xFE) >>> 3) * 4 + ((b13 &&& 0x06) >>> 1)

theorem pesTsByte9 (b : Nat) (h : b < 256) :
    jsShl (jsAnd (b : Int) 0x0E) 27 = (((b &&& 0x0E) <<< 27 : Nat) : Int) := by
  have hm : b &&& 0x0E ≤ 0x0E := Nat.and_le_right
  have e : jsAnd (b : Int) 0x0E = ((b &&& 0x0E : Nat) : Int) := by
    simpa using jsAnd_eq_natAnd (a := b) (b := 0x0E) (by omega) (by omega)
  rw [e]
  refine jsShl_eq_natShl (by omega) ?_
  have hp : (2 : Nat) ^ 27 = 134217728 := by norm_num
  rw [hp]
  omega

theorem pesTsByte10 (b : Nat) (h : b < 256) :
    jsShl (jsAnd (b : Int) 0xFF) 20 = ((b <<< 20 : Nat) : Int) := by
  have hm : b &&& 0xFF = b := by
    have hx := Nat.and_pow_two_sub_one_eq_mod b 8
    norm_num at hx
    omega
  have e : jsAnd (b : Int) 0xFF = ((b &&& 0xFF : Nat) : Int) := by
    simpa using jsAnd_eq_natAnd (a := b) (b := 0xFF) (by omega) (by omega)
  rw [e, hm]
  refine jsShl_eq_natShl (by omega) ?_
  have hp : (2 : Nat) ^ 20 = 1048576 := by norm_num
  rw [hp]
  omega

theorem pesTsByte11 (b : Nat) (h : b < 256) :
    jsShl (jsAnd (b : Int) 0xFE) 12 = (((b &&& 0xFE) <<< 12 : Nat) : Int) := by
  have hm : b &&& 0xFE ≤ 0xFE := Nat.and_le_right
  have e : jsAnd (b : Int) 0xFE = ((b &&& 0xFE : Nat) : Int) := by
    simpa using jsAnd_eq_natAnd (a := b) (b := 0xFE) (by omega) (by omega)
  rw [e]
  refine jsShl_eq_natShl (by omega) ?_
  have hp : (2 : Nat) ^ 12 = 4096 := by norm_num
  rw [hp]
  omega

theorem pesTsByte12 (b : Nat) (h : b < 256) :
    jsShl (jsAnd (b : Int) 0xFF) 5 = ((b <<< 5 : Nat) : Int) := by
  have hm : b &&& 0xFF = b := by
    have hx := Nat.and_pow_two_sub_one_eq_mod b 8
    norm_num at hx
    omega
  have e : jsAnd (b : Int) 0xFF = ((b &&& 0xFF : Nat) : Int) := by
    simpa using jsAnd_eq_natAnd (a := b) (b := 0xFF) (by omega) (by omega)
  rw [e, hm]
  refine jsShl_eq_natShl (by omega) ?_
  have hp : (2 : Nat) ^ 5 = 32 := by norm_num
  rw [hp]
  omega

theorem pesTsByte13hi (b : Nat) (h : b < 256) :
    jsShrU (jsAnd (b : Int) 0xFE) 3 = (((b &&& 0xFE) >>> 3 : Nat) : Int) := by
  have hm : b &&& 0xFE ≤ 0xFE := Nat.and_le_right
  have e : jsAnd (b : Int) 0xFE = ((b &&& 0xFE : Nat) : Int) := by
    simpa using jsAnd_eq_natAnd (a := b) (b := 0xFE) (by omega) (by omega)
  rw [e]
  exact jsShrU_eq_natShr (by omega)

theorem pesTsByte13lo (b : Nat) (h : b < 256) :
    jsShrU (jsAnd (b : Int) 0x06) 1 = (((b &&& 0x06) >>> 1 : Nat) : Int) := by
  have hm : b &&& 0x06 ≤ 0x06 := Nat.and_le_right
  have e : jsAnd (b : Int) 0x06 = ((b &&& 0x06 : Nat) : Int) := by
    simpa using jsAnd_eq_natAnd (a := b) (b := 0x06) (by omega) (by omega)
  rw [e]
  exact jsShrU_eq_natShr (by omega)

theorem shlMaskBound {b m k c : Nat} (hm : b &&& m ≤ m) (hc : (m + 1) * 2 ^ k ≤ c) :
    (b &&& m) <<< k < c := by
  rw [Nat.shiftLeft_eq]
  have h1 : (b &&& m) * 2 ^ k ≤ m * 2 ^ k := Nat.mul_le_mul_right _ hm
  have hp : 0 < (2 : Nat) ^ k := Nat.pos_pow_of_pos k (by omega)
  have h2 : m * 2 ^ k < (m + 1) * 2 ^ k :=
    (Nat.mul_lt_mul_right hp).mpr (by omega)
  omega

theorem pesTsHighBound (b9 b10 b11 b12 b13 : Nat)
    (h10 : b10 < 256) (h12 : b12 < 256) :
    (b9 &&& 0x0E) <<< 27 ||| b10 <<< 20 ||| (b11 &&& 0xFE) <<< 12 ||| b12 <<< 5
      ||| (b13 &&& 0xFE) >>> 3 < 2147483648 := by
  have hp31 : (2 : Nat) ^ 31 = 2147483648 := by norm_num
  have hA : (b9 &&& 0x0E) <<< 27 < 2147483648 :=
    shlMaskBound Nat.and_le_right (by norm_num)
  have hB : b10 <<< 20 < 2147483648 := by
    rw [Nat.shiftLeft_eq]
    have : (2 : Nat) ^ 20 = 1048576 := by norm_num
    rw [this]
    omega
  have hC : (b11 &&& 0xFE) <<< 12 < 2147483648 :=
    shlMaskBound Nat.and_le_right (by norm_num)
  have hD : b12 <<< 5 < 2147483648 := by
    rw [Nat.shiftLeft_eq]
    have : (2 : Nat) ^ 5 = 32 := by norm_num
    rw [this]
    omega
  have hE : (b13 &&& 0xFE) >>> 3 < 2147483648 := by
    have hm : b13 &&& 0xFE ≤ 0xFE := Nat.and_le_right
    rw [Nat.shiftRight_eq_div_pow]
    have : (2 : Nat) ^ 3 = 8 := by norm_num
    rw [this]
    omega
  have hAB := Nat.or_lt_two_pow (x := (b9 &&& 0x0E) <<< 27) (y := b10 <<< 20)
    (n := 31) (by omega) (by omega)
  have hABC := Nat.or_lt_two_pow (x := (b9 &&& 0x0E) <<< 27 ||| b10 <<< 20)
    (y := (b11 &&& 0xFE) <<< 12) (n := 31) (by omega) (by omega)
  have hABCD := Nat.or_lt_two_pow
    (x := (b9 &&& 0x0E) <<< 27 ||| b10 <<< 20 ||| (b11 &&& 0xFE) <<< 12)
    (y := b12 <<< 5) (n := 31) (by omega) (by omega)
  have hAll := Nat.or_lt_two_pow
    (x := (b9 &&& 0x0E) <<< 27 ||| b10 <<< 20 ||| (b11 &&& 0xFE) <<< 12 ||| b12 <<< 5)
    (y := (b13 &&& 0xFE) >>> 3) (n := 31) (by omega) (by omega)
  omega

theorem pesTimestamp_eq_nat (b9 b10 b11 b12 b13 : Nat)
    (h9 : b9 < 256) (h10 : b10 < 256) (h11 : b11 < 256) (h12 : b12 < 256)
    (h13 : b13 < 256) :
    pesTimestamp (b9 : Int) (b10 : Int) (b11 : Int) (b12 : Int) (b13 : Int)
      = ((ptsFormulaNat b9 b10 b11 b12 b13 : Nat) : Int) := by
  have hp31 : (2 : Nat) ^ 31 = 2147483648 := by norm_num
  have hA : (b9 &&& 0x0E) <<< 27 < 2147483648 :=
    shlMaskBound Nat.and_le_right (by norm_num)
  have hB : b10 <<< 20 < 2147483648 := by
    rw [Nat.shiftLeft_eq]
    have hp : (2 : Nat) ^ 20 = 1048576 := by norm_num
    rw [hp]
    omega
  have hC : (b11 &&& 0xFE) <<< 12 < 2147483648 :=
    shlMaskBound Nat.and_le_right (by norm_num)
  have hD : b12 <<< 5 < 2147483648 := by
    rw [Nat.shiftLeft_eq]
    have hp : (2 : Nat) ^ 5 = 32 := by norm_num
    rw [hp]
    omega
  have hE : (b13 &&& 0xFE) >>> 3 < 2147483648 := by
    have hm : b13 &&& 0xFE ≤ 0xFE := Nat.and_le_right
    rw [Nat.shiftRight_eq_div_pow]
    have hp : (2 : Nat) ^ 3 = 8 := by norm_num
    rw [hp]
    omega
  have hAB : (b9 &&& 0x0E) <<< 27 ||| b10 <<< 20 < 2147483648 := by
    have hx := Nat.or_lt_two_pow (x := (b9 &&& 0x0E) <<< 27) (y := b10 <<< 20)
      (n := 31) (by omega) (by omega)
    omega
  have hABC : (b9 &&& 0x0E) <<< 27 ||| b10 <<< 20 ||| (b11 &&& 0xFE) <<< 12
      < 2147483648 := by
    have hx := Nat.or_lt_two_pow (x := (b9 &&& 0x0E) <<< 27 ||| b10 <<< 20)
      (y := (b11 &&& 0xFE) <<< 12) (n := 31) (by omega) (by omega)
    omega
  have hABCD : (b9 &&& 0x0E) <<< 27 ||| b10 <<< 20 ||| (b11 &&& 0xFE) <<< 12
      ||| b12 <<< 5 < 2147483648 := by
    have hx := Nat.or_lt_two_pow
      (x := (b9 &&& 0x0E) <<< 27 ||| b10 <<< 20 ||| (b11 &&& 0xFE) <<< 12)
      (y := b12 <<< 5) (n := 31) (by omega) (by omega)
    omega
  unfold pesTimestamp pesTimestampHigh
  rw [pesTsByte9 b9 h9, pesTsByte10 b10 h10, pesTsByte11 b11 h11,
      pesTsByte12 b12 h12, pesTsByte13hi b13 h13, pesTsByte13lo b13 h13,
      jsOr_eq_natOr hA hB, jsOr_eq_natOr hAB hC, jsOr_eq_natOr hABC hD,
      jsOr_eq_natOr hABCD hE]
  unfold ptsFormulaNat
  push_cast
  ring

theorem getD_lt_256 {l : List Nat} (h : ∀ b ∈ l, b < 256) (i : Nat) :
    l.getD i 0 < 256 := by
  rcases Nat.lt_or_ge i l.length with hi | hi
  · rw [List.getD_eq_getElem l 0 hi]
    exact h _ (List.getElem_mem hi)
  · rw [List.getD_eq_default l 0 hi]
    omega

/-- **C5.** For every assembled PES payload (of bytes, as delivered by the
`Uint8Array` buffers of the source) whose `ptsDtsFlags` byte has the PTS bit
(0x80) set, `parsePes` computes
`pts = ((b9 & 0x0E) << 27 | b10 << 20 | (b11 & 0xFE) << 12 | b12 << 5 |
(b13 & 0xFE) >> 3) * 4 + ((b13 & 0x06) >> 1)` — the full 33-bit value
(< 2^33), with no 32-bit truncation despite the JavaScript bitwise operators;
when the DTS flag (0x40) is also set, `dts` is the identical formula over
bytes 14–18, and when it is clear, `dts = pts`. -/
theorem parsePes_pts_dts (payload : List Nat)
    (hb : ∀ b ∈ payload, b < 256)
    (hpts : payload.getD 7 0 &&& 0x80 ≠ 0) :
    (parsePes payload).pts
        = some ((ptsFormulaNat (payload.getD 9 0) (payload.getD 10 0)
            (payload.getD 11 0) (payload.getD 12 0) (payload.getD 13 0) : Nat) : Int)
  ∧ (payload.getD 7 0 &&& 0x40 ≠ 0 →
      (parsePes payload).dts
        = some ((ptsFormulaNat (payload.getD 14 0) (payload.getD 15 0)
            (payload.getD 16 0) (payload.getD 17 0) (payload.getD 18 0) : Nat) : Int))
  ∧ (payload.getD 7 0 &&& 0x40 = 0 → (parsePes payload).dts = (parsePes payload).pts)
  ∧ ptsFormulaNat (payload.getD 9 0) (payload.getD 10 0) (payload.getD 11 0)
      (payload.getD 12 0) (payload.getD 13 0) < 8589934592 := by
  have hflags : payload.getD 7 0 &&& 0xC0 ≠ 0 := by
    intro h0
    apply hpts
    have h1 : (0xC0 : Nat) &&& 0x80 = 0x80 := by decide
    calc payload.getD 7 0 &&& 0x80
        = payload.getD 7 0 &&& (0xC0 &&& 0x80) := by rw [h1]
      _ = (payload.getD 7 0 &&& 0xC0) &&& 0x80 := by rw [Nat.and_assoc]
      _ = 0 := by rw [h0]; decide
  have hptseq := pesTimestamp_eq_nat (payload.getD 9 0) (payload.getD 10 0)
    (payload.getD 11 0) (payload.getD 12 0) (payload.getD 13 0)
    (getD_lt_256 hb 9) (getD_lt_256 hb 10) (getD_lt_256 hb 11)
    (getD_lt_256 hb 12) (getD_lt_256 hb 13)
  have hdtseq := pesTimestamp_eq_nat (payload.getD 14 0) (payload.getD 15 0)
    (payload.getD 16 0) (payload.getD 17 0) (payload.getD 18 0)
    (getD_lt_256 hb 14) (getD_lt_256 hb 15) (getD_lt_256 hb 16)
    (getD_lt_256 hb 17) (getD_lt_256 hb 18)
  refine ⟨?_, ?_, ?_, ?_⟩
  · show (parsePes payload).pts = _
    simp only [parsePes]
    rw [if_pos hflags]
    exact congrArg some hptseq
  · intro h40
    simp only [parsePes]
    rw [if_pos hflags, if_pos h40]
    exact congrArg some hdtseq
  · intro h40
    simp only [parsePes]
    rw [if_pos hflags, if_neg (by omega : ¬payload.getD 7 0 &&& 0x40 ≠ 0)]
  · have hX := pesTsHighBound (payload.getD 9 0) (payload.getD 10 0)
      (payload.getD 11 0) (payload.getD 12 0) (payload.getD 13 0)
      (getD_lt_256 hb 10) (getD_lt_256 hb 12)
    have hY : (payload.getD 13 0 &&& 0x06) >>> 1 ≤ 3 := by
      have hm : payload.getD 13 0 &&& 0x06 ≤ 6 := Nat.and_le_right
      rw [Nat.shiftRight_eq_div_pow]
      have hp : (2 : Nat) ^ 1 = 2 := by norm_num
      rw [hp]
      omega
    unfold ptsFormulaNat
    omega

/-- Witness for C5: a concrete 19-byte PES header whose PTS field encodes
2^33 − 1 (all five timestamp bytes 0xFF), parsed to exactly 8589934591. -/
theorem parsePes_pts_dts_witness :
    (parsePes [0, 0, 1, 0xE0, 0, 0, 0x84, 0xC0, 10,
        0xFF, 0xFF, 0xFF, 0xFF, 0xFF, 0x21, 0, 1, 0, 1]).pts
      = some 8589934591 := by
  have h := parsePes_pts_dts
    [0, 0, 1, 0xE0, 0, 0, 0x84, 0xC0, 10,
     0xFF, 0xFF, 0xFF, 0xFF, 0xFF, 0x21, 0, 1, 0, 1]
    (by decide) (by decide)
  rw [h.1]
  decide

/-! ### C6: when `ElementaryStream` emits an assembled PES packet -/

/-- **C6.** `flushStream` emits an assembled PES packet exactly when at least
9 bytes are buffered and the packet is flushable: video unconditionally,
audio and timed-metadata exactly when the declared `packetLength` is at most
the buffered size (so an audio/metadata packet whose declared length exceeds
the buffered bytes is never emitted, even when `forceFlush` is set — e.g. on
the next payload-unit start); moreover `ElementaryStream.push` without a
payload-unit-start marker never emits at all, so video packets are only
assembled on the next start marker or an explicit flush. -/
theorem es_emission_characterization :
    (∀ (buf : EsBuffer) (ty : MediaType) (force : Bool),
      (flushStream buf ty force).1.isSome
        ↔ (buf.data ≠ [] ∧ 9 ≤ buf.size ∧
            (ty = MediaType.video ∨
              (parsePes ((buf.data.map Prod.snd)).flatten).packetLength ≤ buf.size)))
  ∧ (∀ (st : EsState) (pid : Nat) (stype : Option Nat) (data : List Nat),
      (esPush st (TsEvent.pes pid false stype data)).1 = []) := by
  constructor
  · intro buf ty force
    unfold flushStream
    by_cases h0 : buf.data.length = 0 ∨ buf.size < 9
    · rw [if_pos h0]
      simp only [Option.isSome_none, Bool.false_eq_true, false_iff]
      intro hcon
      rcases h0 with h0 | h0
      · exact hcon.1 (List.length_eq_zero.mp h0)
      · omega
    · rw [if_neg h0]
      push_neg at h0
      by_cases hf : ty = MediaType.video ∨
          (parsePes ((buf.data.map Prod.snd)).flatten).packetLength ≤ buf.size
      · simp only [if_pos hf, Option.isSome_some, true_iff]
        refine ⟨fun hnil => h0.1 (by simp [hnil]), by omega, hf⟩
      · simp only [if_neg hf, Option.isSome_none, Bool.false_eq_true, false_iff]
        intro hcon
        exact hf hcon.2.2
  · intro st pid stype data
    unfold esPush
    by_cases hv : stype = some H264_STREAM_TYPE
    · simp [hv, H264_STREAM_TYPE, ADTS_STREAM_TYPE, METADATA_STREAM_TYPE]
    · by_cases ha : stype = some ADTS_STREAM_TYPE
      · simp [hv, ha, H264_STREAM_TYPE, ADTS_STREAM_TYPE, METADATA_STREAM_TYPE]
      · by_cases hm : stype = some METADATA_STREAM_TYPE
        · simp [hv, ha, hm, H264_STREAM_TYPE, ADTS_STREAM_TYPE, METADATA_STREAM_TYPE]
        · simp [hv, ha, hm]

/-! ### TimestampRolloverStream (src/unnamed/part_003)

`handleRollover` adjusts a 33-bit timestamp toward the reference by repeatedly
adding `direction * 2^33` while the distance exceeds 2^32.  The `while` loop
is embedded with an explicit fuel bound: `|reference − value|` strictly
decreases on every iteration (`rolloverFuel_spec`), so
`|reference − value| + 1` iterations always suffice and the fuel never runs
out before the loop guard fails. -/

def MAX_TS : Int := 8589934592

def RO_THRESH : Int := 4294967296

def handleRolloverFuel : Nat → Int → Int → Int → Int
  | 0, _, _, value => value
  | fuel + 1, direction, reference, value =>
    if (reference - value).natAbs > 4294967296 then
      handleRolloverFuel fuel direction reference (value + direction * MAX_TS)
    else value

/-- `handleRollover(value, reference)` of the source: `direction` is −1 when
`value > reference`, +1 otherwise, fixed for the whole loop. -/
def handleRollover (value reference : Int) : Int :=
  handleRolloverFuel ((reference - value).natAbs + 1)
    (if value > reference then -1 else 1) reference value

theorem rolloverFuel_spec (fuel : Nat) (d reference v : Int)
    (hfuel : (reference - v).natAbs ≤ fuel + 4294967296)
    (hd : (d = 1 ∧ -4294967296 ≤ reference - v)
        ∨ (d = -1 ∧ reference - v ≤ 4294967296)) :
    (reference - handleRolloverFuel fuel d reference v).natAbs ≤ 4294967296
    ∧ handleRolloverFuel fuel d reference v % 8589934592 = v % 8589934592 := by
  induction fuel generalizing v with
  | zero =>
    unfold handleRolloverFuel
    exact ⟨by omega, rfl⟩
  | succ n ih =>
    unfold handleRolloverFuel
    by_cases hbig : (reference - v).natAbs > 4294967296
    · rw [if_pos hbig]
      rcases hd with ⟨hd1, hr⟩ | ⟨hd1, hr⟩
      · subst hd1
        have := ih (v + 1 * MAX_TS) (by unfold MAX_TS; omega)
          (Or.inl ⟨rfl, by unfold MAX_TS; omega⟩)
        unfold MAX_TS at this ⊢
        constructor
        · exact this.1
        · rw [this.2]
          omega
      · subst hd1
        have := ih (v + -1 * MAX_TS) (by unfold MAX_TS; omega)
          (Or.inr ⟨rfl, by unfold MAX_TS; omega⟩)
        unfold MAX_TS at this ⊢
        constructor
        · exact this.1
        · rw [this.2]
          omega
    · rw [if_neg hbig]
      exact ⟨by omega, rfl⟩

/-- After `handleRollover` the result is within 2^32 of the reference and is
congruent to the input modulo 2^33. -/
theorem handleRollover_window (value reference : Int) :
    (reference - handleRollover value reference).natAbs ≤ 4294967296
    ∧ handleRollover value reference % 8589934592 = value % 8589934592 := by
  unfold handleRollover
  by_cases h : value > reference
  · rw [if_pos h]
    exact rolloverFuel_spec _ _ _ _ (by omega) (Or.inr ⟨rfl, by omega⟩)
  · rw [if_neg h]
    exact rolloverFuel_spec _ _ _ _ (by omega) (Or.inl ⟨rfl, by omega⟩)

/-- `handleRollover` produces the unique representative of `value mod 2^33`
lying strictly inside the window `(reference − 2^32, reference + 2^32)`
whenever such a representative exists. -/
theorem handleRollover_eq_of_window (value reference t : Int)
    (hmod : t % 8589934592 = value % 8589934592)
    (hlo : reference - 4294967296 < t) (hhi : t < reference + 4294967296) :
    handleRollover value reference = t := by
  have h := handleRollover_window value reference
  omega

/-- When the value is already within 2^32 of the reference the loop never
runs and the value is unchanged. -/
theorem handleRollover_eq_self {value reference : Int}
    (h : (reference - value).natAbs ≤ 4294967296) :
    handleRollover value reference = value := by
  unfold handleRollover handleRolloverFuel
  rw [if_neg (by omega)]

/-- Events flowing through a rollover stream (`type` is the stream tag the
stage filters on; `shared` streams are modelled by filter tag `none`). -/
structure RolloverEvent where
  type : MediaType
  dts : Int
  pts : Int
deriving DecidableEq

structure RolloverState where
  referenceDTS : Option Int
  lastDTS : Option Int
deriving DecidableEq

def initRollover : RolloverState := ⟨none, none⟩

/-- `TimestampRolloverStream.push`: filter by type, set the reference from
the first event's DTS, adjust DTS and PTS, record `lastDTS`. -/
def rolloverPush (ty : Option MediaType) (st : RolloverState)
    (e : RolloverEvent) : Option RolloverEvent × RolloverState :=
  if ty ≠ none ∧ some e.type ≠ ty then (none, st)
  else
    let reference := st.referenceDTS.getD e.dts
    let dts := handleRollover e.dts reference
    let pts := handleRollover e.pts reference
    (some { e with dts := dts, pts := pts },
     { referenceDTS := some reference, lastDTS := some dts })

/-- `flush`: the next segment's reference becomes the tail of this one. -/
def rolloverFlush (st : RolloverState) : RolloverState :=
  { st with referenceDTS := st.lastDTS }

/-- `discontinuity` / the state effect of `reset`. -/
def rolloverDiscontinuity (_st : RolloverState) : RolloverState :=
  ⟨none, none⟩

def rolloverRun (ty : Option MediaType) (st : RolloverState) :
    List RolloverEvent → List RolloverEvent × RolloverState
  | [] => ([], st)
  | e :: es =>
    ((rolloverPush ty st e).1.toList ++ (rolloverRun ty (rolloverPush ty st e).2 es).1,
     (rolloverRun ty (rolloverPush ty st e).2 es).2)

/-- DTS-only view: feed raw DTS values (as events with `pts = dts`) through a
fresh shared rollover stream and collect the emitted DTS values. -/
def rolloverDtsOutputs (l : List Int) : List Int :=
  ((rolloverRun none initRollover
    (l.map (fun v => ⟨MediaType.video, v, v⟩))).1).map RolloverEvent.dts

theorem rolloverRun_some_ref (r : Int) (last : Option Int) (vs : List Int) :
    ((rolloverRun none ⟨some r, last⟩
        (vs.map (fun v => ⟨MediaType.video, v, v⟩))).1).map RolloverEvent.dts
      = vs.map (fun x => handleRollover x r) := by
  induction vs generalizing last with
  | nil => rfl
  | cons v rest ih =>
    show ((rolloverPush none ⟨some r, last⟩ ⟨MediaType.video, v, v⟩).1.toList
        ++ _).map RolloverEvent.dts = _
    rw [List.map_append]
    unfold rolloverPush
    rw [if_neg (by simp)]
    simp only [Option.toList_some, Option.getD_some]
    rw [List.map_cons]
    show handleRollover v r :: _ ++
      ((rolloverRun none ⟨some r, some (handleRollover v r)⟩ _).1).map RolloverEvent.dts
      = _
    rw [ih (some (handleRollover v r))]
    rfl

theorem rolloverDtsOutputs_closed (v0 : Int) (vs : List Int) :
    rolloverDtsOutputs (v0 :: vs)
      = v0 :: vs.map (fun x => handleRollover x v0) := by
  unfold rolloverDtsOutputs
  rw [List.map_cons]
  show ((rolloverPush none initRollover ⟨MediaType.video, v0, v0⟩).1.toList
      ++ _).map RolloverEvent.dts = _
  unfold rolloverPush initRollover
  rw [if_neg (by simp)]
  simp only [Option.toList_some, Option.getD_none, List.map_append, List.map_cons,
    List.map_nil, List.nil_append]
  rw [handleRollover_eq_self (by omega : ((v0 : Int) - v0).natAbs ≤ 4294967296)]
  rw [rolloverRun_some_ref]
  rfl

/-- **C3 (counterexample).** The claim says the first pushed event's
timestamps are left unchanged.  Its DTS always is, but its PTS is rolled
relative to the freshly set reference (= its DTS): pushing the first event
with `dts = 0, pts = 2^32 + 1` yields output `pts = 2^32 + 1 − 2^33 ≠ pts`. -/
theorem rollover_first_event_counterexample :
    (rolloverPush none initRollover ⟨MediaType.video, 0, 4294967297⟩).1
      = some ⟨MediaType.video, 0, -4294967295⟩
  ∧ (-4294967295 : Int) ≠ 4294967297 := by
  refine ⟨?_, by decide⟩
  unfold rolloverPush initRollover
  rw [if_neg (by simp)]
  simp only [Option.getD_none]
  rw [handleRollover_eq_self (by omega : ((0 : Int) - 0).natAbs ≤ 4294967296),
      handleRollover_eq_of_window 4294967297 0 (-4294967295)
        (by decide) (by decide) (by decide)]

/-- **C3 (amended).** On the first pushed event the stream sets its reference
to that event's DTS; the event's DTS is emitted unchanged, and its PTS is
unchanged provided `|pts − dts| ≤ 2^32` (otherwise it is rolled relative to
the DTS).  Every subsequent event is emitted with DTS and PTS adjusted by
`handleRollover` against that reference (the `while |reference − v| > 2^32`
loop adding `direction × 2^33`).  Concretely, pushing DTS `2^33 − 10` then
DTS `5` yields downstream DTS `2^33 − 10` then `2^33 + 5`. -/
theorem rollover_first_event_and_example :
    (∀ e : RolloverEvent,
        (rolloverPush none initRollover e).2.referenceDTS = some e.dts
      ∧ ((rolloverPush none initRollover e).1.map RolloverEvent.dts) = some e.dts
      ∧ ((e.pts - e.dts).natAbs ≤ 4294967296 →
          (rolloverPush none initRollover e).1 = some e))
  ∧ (∀ (r : Int) (last : Option Int) (e : RolloverEvent),
      rolloverPush none ⟨some r, last⟩ e
        = (some { e with dts := handleRollover e.dts r, pts := handleRollover e.pts r },
           ⟨some r, some (handleRollover e.dts r)⟩))
  ∧ rolloverDtsOutputs [8589934582, 5] = [8589934582, 8589934597] := by
  refine ⟨fun e => ⟨?_, ?_, ?_⟩, fun r last e => ?_, ?_⟩
  · unfold rolloverPush initRollover
    rw [if_neg (by simp)]
    rfl
  · unfold rolloverPush initRollover
    rw [if_neg (by simp)]
    simp only [Option.getD_none]
    rw [handleRollover_eq_self (by omega : ((e.dts : Int) - e.dts).natAbs ≤ 4294967296)]
    rfl
  · intro hnear
    unfold rolloverPush initRollover
    rw [if_neg (by simp)]
    simp only [Option.getD_none]
    rw [handleRollover_eq_self (by omega : ((e.dts : Int) - e.dts).natAbs ≤ 4294967296),
        handleRollover_eq_self (by omega : ((e.dts : Int) - e.pts).natAbs ≤ 4294967296)]
  · unfold rolloverPush
    rw [if_neg (by simp)]
    rfl
  · rw [rolloverDtsOutputs_closed]
    simp only [List.map_cons, List.map_nil]
    rw [handleRollover_eq_of_window 5 8589934582 8589934597
      (by decide) (by decide) (by decide)]

/-- Witness for the amended C3: a first event with nearby PTS passes through
unchanged, and the spec's concrete rollover example holds. -/
theorem rollover_first_event_and_example_witness :
    (rolloverPush none initRollover ⟨MediaType.video, 7, 9⟩).1
      = some ⟨MediaType.video, 7, 9⟩
  ∧ rolloverDtsOutputs [8589934582, 5] = [8589934582, 8589934597] := by
  have h := rollover_first_event_and_example
  exact ⟨(h.1 ⟨MediaType.video, 7, 9⟩).2.2 (by decide), h.2.2⟩

/-- The successive forward gaps of a DTS sequence, measured modulo 2^33. -/
def fwdGaps : List Int → List Int
  | a :: b :: rest => (b - a) % 8589934592 :: fwdGaps (b :: rest)
  | _ => []

theorem fwdGaps_sum_nonneg (l : List Int) : 0 ≤ (fwdGaps l).sum := by
  induction l with
  | nil => simp [fwdGaps]
  | cons a rest ih =>
    match rest, ih with
    | [], _ => simp [fwdGaps]
    | b :: rest, ih =>
      rw [fwdGaps, List.sum_cons]
      have := Int.emod_nonneg (b - a) (by norm_num : (8589934592 : Int) ≠ 0)
      omega

/-- **C4 (counterexample).** Inputs `0, 2^32, 2^33 − 1` all lie in
`[0, 2^33)` and every successive gap — raw or modulo 2^33 — is at most 2^32,
yet with the reference fixed at the first value the output DTS sequence is
`0, 2^32, −1`, which decreases. -/
theorem rollover_monotone_counterexample :
    rolloverDtsOutputs [0, 4294967296, 8589934591] = [0, 4294967296, -1]
  ∧ ¬ List.Chain' (fun a b => a ≤ b) ([0, 4294967296, -1] : List Int)
  ∧ ((4294967296 : Int) - 0).natAbs ≤ 4294967296
  ∧ ((8589934591 : Int) - 4294967296).natAbs ≤ 4294967296
  ∧ ((4294967296 : Int) - 0) % 8589934592 ≤ 4294967296
  ∧ ((8589934591 : Int) - 4294967296) % 8589934592 ≤ 4294967296 := by
  refine ⟨?_, ?_, by decide, by decide, by decide, by decide⟩
  case refine_2 =>
    simp only [List.chain'_cons, List.chain'_singleton, and_true]
    omega
  rw [rolloverDtsOutputs_closed]
  simp only [List.map_cons, List.map_nil]
  rw [handleRollover_eq_self (by decide),
      handleRollover_eq_of_window 8589934591 0 (-1) (by decide) (by decide) (by decide)]

theorem rollover_mono_aux (v0 : Int) (vs : List Int) (prev t : Int)
    (hmod : t % 8589934592 = prev % 8589934592)
    (hlo : v0 ≤ t)
    (hhi : t + (fwdGaps (prev :: vs)).sum < v0 + 4294967296) :
    List.Chain' (fun a b => a ≤ b) (t :: vs.map (fun x => handleRollover x v0)) := by
  induction vs generalizing prev t with
  | nil => simp
  | cons v rest ih =>
    have hg0 : 0 ≤ (v - prev) % 8589934592 :=
      Int.emod_nonneg _ (by norm_num : (8589934592 : Int) ≠ 0)
    have hrest0 : 0 ≤ (fwdGaps (v :: rest)).sum := fwdGaps_sum_nonneg _
    rw [fwdGaps, List.sum_cons] at hhi
    have hvmod : (t + (v - prev) % 8589934592) % 8589934592 = v % 8589934592 := by
      omega
    have hout : handleRollover v v0 = t + (v - prev) % 8589934592 :=
      handleRollover_eq_of_window v v0 _ hvmod (by omega) (by omega)
    rw [List.map_cons, hout]
    rw [List.chain'_cons]
    exact ⟨by omega, ih v (t + (v - prev) % 8589934592) hvmod (by omega) (by omega)⟩

/-- **C4 (amended).** For a DTS sequence pushed through a fresh
`TimestampRolloverStream` (reference = first value, no intervening flush),
if the total forward progress — the sum of the successive gaps measured
modulo 2^33 — is less than 2^32, then the output DTS sequence is monotone
non-decreasing (each output is the reference plus the accumulated progress).
With the reference fixed this bound is sharp: progress of 2^32 or more can
wrap outputs below the reference (see the counterexample). -/
theorem rollover_output_monotone (v0 : Int) (vs : List Int)
    (hsum : (fwdGaps (v0 :: vs)).sum < 4294967296) :
    List.Chain' (fun a b => a ≤ b) (rolloverDtsOutputs (v0 :: vs)) := by
  rw [rolloverDtsOutputs_closed]
  exact rollover_mono_aux v0 vs v0 v0 rfl le_rfl (by omega)

/-- Witness for the amended C4: the spec's own rollover pair `2^33 − 10, 5`
has forward gap 15 and a monotone output sequence. -/
theorem rollover_output_monotone_witness :
    (fwdGaps [8589934582, 5]).sum < 4294967296
  ∧ List.Chain' (fun a b => a ≤ b) (rolloverDtsOutputs [8589934582, 5]) :=
  ⟨by decide, rollover_output_monotone 8589934582 [5] (by decide)⟩

/-! ### AdtsStream (src/lib/codecs/index.js, lines 52–167)

Unpacks ADTS frames from audio PES packets.  Timestamps are JavaScript
numbers; the arithmetic performed here (integer products and one division)
is modelled exactly over `ℚ`. -/

def ADTS_SAMPLING_FREQUENCIES : List Nat :=
  [96000, 88200, 64000, 48000, 44100, 32000, 24000, 22050,
   16000, 12000, 11025, 8000, 7350]

/-- Modelled from the spec: `ONE_SECOND_IN_TS` of `src/lib/utils/clock`
(file not under src/); all timestamps are at 90 kHz (spec §3, §4.7). -/
def ONE_SECOND_IN_TS : Nat := 90000

structure AdtsPesPacket where
  type : MediaType
  pts : ℚ
  dts : ℚ
  data : List Nat
deriving DecidableEq

structure AdtsFrame where
  pts : ℚ
  dts : ℚ
  sampleCount : Nat
  audioobjecttype : Nat
  channelcount : Nat
  samplerate : Nat
  samplingfrequencyindex : Nat
  samplesize : Nat
  data : List Nat
deriving DecidableEq

structure AdtsState where
  buffer : Option (List Nat)
  frameNum : Nat
deriving DecidableEq

def initAdts : AdtsState := ⟨none, 0⟩

/-- The frame-scanning `while` loop of `AdtsStream.push`, with explicit fuel
(the source loop does not terminate on a degenerate header declaring
`frameLength ≤ i`, where the JavaScript hangs; `buffer.length + 1` fuel covers
every terminating run of the source).  An out-of-table sampling-frequency
index yields NaN timestamps in JavaScript; the model looks the table up with
default 0.  `(1 - (b & 1)) * 2` is the source's `(~b & 0x01) * 2`. -/
def adtsLoop (fuel : Nat) (p d : ℚ) (buffer : List Nat) (i frameNum : Nat) :
    List AdtsFrame × Option (List Nat) × Nat :=
  match fuel with
  | 0 => ([], some buffer, frameNum)
  | fuel + 1 =>
    if i + 5 < buffer.length then
      if ¬(buffer.getD i 0 = 0xFF ∧ buffer.getD (i + 1) 0 &&& 0xF6 = 0xF0) then
        adtsLoop fuel p d buffer (i + 1) frameNum
      else
        let protectionSkipBytes := (1 - (buffer.getD (i + 1) 0 &&& 0x01)) * 2
        let frameLength := ((buffer.getD (i + 3) 0 &&& 0x03) <<< 11) |||
          (buffer.getD (i + 4) 0 <<< 3) ||| ((buffer.getD (i + 5) 0 &&& 0xE0) >>> 5)
        let sampleCount := ((buffer.getD (i + 6) 0 &&& 0x03) + 1) * 1024
        let samplerate :=
          ADTS_SAMPLING_FREQUENCIES.getD ((buffer.getD (i + 2) 0 &&& 0x3C) >>> 2) 0
        let adtsFrameDuration : ℚ := (sampleCount * ONE_SECOND_IN_TS : ℚ) / samplerate
        let frameEnd := i + frameLength
        if buffer.length < frameEnd then ([], some buffer, frameNum)
        else
          let frame : AdtsFrame :=
            { pts := p + frameNum * adtsFrameDuration
              dts := d + frameNum * adtsFrameDuration
              sampleCount := sampleCount
              audioobjecttype := ((buffer.getD (i + 2) 0 >>> 6) &&& 0x03) + 1
              channelcount := ((buffer.getD (i + 2) 0 &&& 0x01) <<< 2) |||
                ((buffer.getD (i + 3) 0 &&& 0xC0) >>> 6)
              samplerate := samplerate
              samplingfrequencyindex := (buffer.getD (i + 2) 0 &&& 0x3C) >>> 2
              samplesize := 16
              data := (buffer.drop (i + 7 + protectionSkipBytes)).take
                (frameEnd - (i + 7 + protectionSkipBytes)) }
          if buffer.length = frameEnd then ([frame], none, frameNum + 1)
          else
            let r := adtsLoop fuel p d (buffer.drop frameEnd) i (frameNum + 1)
            (frame :: r.1, r.2.1, r.2.2)
    else ([], some buffer, frameNum)

/-- `AdtsStream.push`: when partial-segment handling is off, `frameNum` is
zeroed at the top of every push (before the audio-type check, as in the
source); the carried buffer is prepended to the packet data. -/
def adtsPush (handlePartialSegments : Bool) (st : AdtsState)
    (pkt : AdtsPesPacket) : List AdtsFrame × AdtsState :=
  let st1 : AdtsState :=
    if handlePartialSegments then st else { st with frameNum := 0 }
  if pkt.type ≠ MediaType.audio then ([], st1)
  else
    let buffer := match st1.buffer with
      | some old => old ++ pkt.data
      | none => pkt.data
    let r := adtsLoop (buffer.length + 1) pkt.pts pkt.dts buffer 0 st1.frameNum
    (r.1, { buffer := r.2.1, frameNum := r.2.2 })

/-- Lifecycle events a stage emits (only `reset` is needed here). -/
inductive StageEvent where
  | reset
deriving DecidableEq

/-- `AdtsStream.flush` zeroes `frameNum`; `reset` clears the byte buffer and
emits a `reset` event. -/
def adtsFlush (st : AdtsState) : AdtsState := { st with frameNum := 0 }

def adtsReset (st : AdtsState) : List StageEvent × AdtsState :=
  ([StageEvent.reset], { st with buffer := none })

/-- The timing law claimed for a run of emitted ADTS frames starting at frame
number `fn`: the `j`-th frame carries
`pts = p + (fn + j) * (sampleCount * 90000 / samplerate)` (and likewise DTS),
with `samplerate` the table entry for its sampling-frequency index. -/
def framesTimedFrom (p d : ℚ) : Nat → List AdtsFrame → Prop
  | _, [] => True
  | fn, f :: rest =>
      f.pts = p + fn * ((f.sampleCount * ONE_SECOND_IN_TS : ℚ) / f.samplerate)
    ∧ f.dts = d + fn * ((f.sampleCount * ONE_SECOND_IN_TS : ℚ) / f.samplerate)
    ∧ f.samplerate = ADTS_SAMPLING_FREQUENCIES.getD f.samplingfrequencyindex 0
    ∧ framesTimedFrom p d (fn + 1) rest

theorem adtsLoop_timed (fuel : Nat) (p d : ℚ) :
    ∀ (buffer : List Nat) (i fn : Nat),
      framesTimedFrom p d fn (adtsLoop fuel p d buffer i fn).1
      ∧ (adtsLoop fuel p d buffer i fn).2.2
          = fn + (adtsLoop fuel p d buffer i fn).1.length := by
  induction fuel with
  | zero =>
    intro buffer i fn
    exact ⟨trivial, rfl⟩
  | succ n ih =>
    intro buffer i fn
    unfold adtsLoop
    by_cases hlen : i + 5 < buffer.length
    · rw [if_pos hlen]
      by_cases hsync : ¬(buffer.getD i 0 = 0xFF ∧ buffer.getD (i + 1) 0 &&& 0xF6 = 0xF0)
      · rw [if_pos hsync]
        exact ih buffer (i + 1) fn
      · rw [if_neg hsync]
        by_cases hshort : buffer.length <
            i + (((buffer.getD (i + 3) 0 &&& 0x03) <<< 11) |||
              (buffer.getD (i + 4) 0 <<< 3) ||| ((buffer.getD (i + 5) 0 &&& 0xE0) >>> 5))
        · rw [if_pos hshort]
          exact ⟨trivial, rfl⟩
        · rw [if_neg hshort]
          by_cases hexact : buffer.length =
              i + (((buffer.getD (i + 3) 0 &&& 0x03) <<< 11) |||
                (buffer.getD (i + 4) 0 <<< 3) ||| ((buffer.getD (i + 5) 0 &&& 0xE0) >>> 5))
          · rw [if_pos hexact]
            exact ⟨⟨rfl, rfl, rfl, trivial⟩, rfl⟩
          · rw [if_neg hexact]
            have h := ih (buffer.drop
              (i + (((buffer.getD (i + 3) 0 &&& 0x03) <<< 11) |||
                (buffer.getD (i + 4) 0 <<< 3) ||| ((buffer.getD (i + 5) 0 &&& 0xE0) >>> 5))))
              i (fn + 1)
            refine ⟨⟨rfl, rfl, rfl, h.1⟩, ?_⟩
            simp only [List.length_cons]
            omega
    · rw [if_neg hlen]
      exact ⟨trivial, rfl⟩

/-- **C7.** Every ADTS frame emitted by `AdtsStream` has
`pts = packet.pts + frameNum × (sampleCount × 90000 / samplerate)` and the
same for `dts`, where `sampleCount = ((byte6 & 3) + 1) × 1024` (recorded on
the frame) and `samplerate` is the frequency-table entry for the frame's
sampling-frequency index; the starting `frameNum` carries over from the
previous push exactly when partial-segment handling is enabled and is reset
to 0 at the start of the push otherwise, and it advances by one per emitted
frame. -/
theorem adtsPush_frame_timing (hp : Bool) (st : AdtsState) (pkt : AdtsPesPacket) :
    framesTimedFrom pkt.pts pkt.dts (if hp then st.frameNum else 0)
        (adtsPush hp st pkt).1
    ∧ (adtsPush hp st pkt).2.frameNum
        = (if hp then st.frameNum else 0) + (adtsPush hp st pkt).1.length := by
  unfold adtsPush
  by_cases hty : pkt.type ≠ MediaType.audio
  · rw [if_pos hty]
    cases hp <;> exact ⟨trivial, rfl⟩
  · rw [if_neg hty]
    cases hp
    · rw [if_neg (by decide : ¬(false = true))]
      exact ⟨(adtsLoop_timed _ _ _ _ _ _).1, (adtsLoop_timed _ _ _ _ _ _).2⟩
    · rw [if_pos rfl]
      exact ⟨(adtsLoop_timed _ _ _ _ _ _).1, (adtsLoop_timed _ _ _ _ _ _).2⟩

/-! ### AacStream (src/lib/aac/index.js)

The raw-AAC framer: splits the byte stream into ID3 tags and ADTS frames.
Its `push` begins by carrying over the remaining bytes of the previous push —
but the source reassigns `this.everything` to a freshly allocated (zeroed)
array *before* copying the old bytes out of it
(`this.everything.set(this.everything.subarray(0, tempLength))`), so the
carried prefix is all zeroes.  The model reproduces this faithfully. -/

/-- Modelled from the spec: `parseAdtsSize` of `src/lib/aac/utils` (not under
src/): the ADTS frame length is the 13-bit field across header bytes 3–5
(spec §4.7, §6). -/
def parseAdtsSize (buf : List Nat) (i : Nat) : Nat :=
  ((buf.getD (i + 3) 0 &&& 0x03) <<< 11) ||| (buf.getD (i + 4) 0 <<< 3) |||
    ((buf.getD (i + 5) 0 &&& 0xE0) >>> 5)

/-- Modelled from the spec: `parseId3TagSize` of `src/lib/aac/utils` (not
under src/): an ID3v2.4 tag occupies its 10-byte header plus the synchsafe
(7-bit-per-byte) size stored in header bytes 6–9 (spec §6). -/
def parseId3TagSize (buf : List Nat) (i : Nat) : Nat :=
  10 + ((buf.getD (i + 6) 0 <<< 21) ||| (buf.getD (i + 7) 0 <<< 14) |||
    (buf.getD (i + 8) 0 <<< 7) ||| buf.getD (i + 9) 0)

inductive AacOut where
  | timedMetadata (data : List Nat)
  | audio (data : List Nat) (pts dts : Int)
deriving DecidableEq

structure AacState where
  everything : List Nat
  timeStamp : Int
deriving DecidableEq

def initAac : AacState := ⟨[], 0⟩

/-- The scanning `while` loop of `AacStream.push` with explicit fuel
(the source loop fails to advance on a degenerate ADTS header declaring
frame size 0; `everything.length + 1` fuel covers every terminating run).
Returns the emitted chunks and the final `byteIndex`. -/
def aacLoop (fuel : Nat) (ts : Int) (ev : List Nat) (bi : Nat) :
    List AacOut × Nat :=
  match fuel with
  | 0 => ([], bi)
  | fuel + 1 =>
    if 3 ≤ ev.length - bi then
      if ev.getD bi 0 = 0x49 ∧ ev.getD (bi + 1) 0 = 0x44 ∧ ev.getD (bi + 2) 0 = 0x33 then
        if ev.length - bi < 10 then ([], bi)
        else
          let frameSize := parseId3TagSize ev bi
          if bi + frameSize > ev.length then ([], bi)
          else
            let r := aacLoop fuel ts ev (bi + frameSize)
            (AacOut.timedMetadata ((ev.drop bi).take frameSize) :: r.1, r.2)
      else if ev.getD bi 0 &&& 0xFF = 0xFF ∧ ev.getD (bi + 1) 0 &&& 0xF0 = 0xF0 then
        if ev.length - bi < 7 then ([], bi)
        else
          let frameSize := parseAdtsSize ev bi
          if bi + frameSize > ev.length then ([], bi)
          else
            let r := aacLoop fuel ts ev (bi + frameSize)
            (AacOut.audio ((ev.drop bi).take frameSize) ts ts :: r.1, r.2)
      else aacLoop fuel ts ev (bi + 1)
    else ([], bi)

/-- `AacStream.push`.  The carried-over prefix is zero-filled (source bug:
the copy source is the freshly allocated destination array itself). -/
def aacPush (st : AacState) (bytes : List Nat) : List AacOut × AacState :=
  let everything :=
    if st.everything.length ≠ 0 then
      List.replicate st.everything.length 0 ++ bytes
    else bytes
  let r := aacLoop (everything.length + 1) st.timeStamp everything 0
  let bytesLeft := everything.length - r.2
  (r.1,
   { st with everything := if bytesLeft > 0 then everything.drop r.2 else [] })

def aacReset (st : AacState) : AacState := { st with everything := [] }

/-- **C8 (code bug).** The source's own comment says the bytes remaining
from the last push are prepended to the new bytes, and the spec requires an
incomplete trailing ADTS frame to be buffered and completed by the next push.
Instead the carried prefix is replaced by zero bytes: feeding the 7-byte ADTS
frame `FF F1 50 00 00 E0 00` whole emits it intact, while feeding `FF F1`
and then `50 00 00 E0 00` emits nothing — the carried sync bytes have become
`00 00` and the completed frame is lost. -/
theorem aacPush_carry_zeroed :
    (aacPush initAac [0xFF, 0xF1, 0x50, 0x00, 0x00, 0xE0, 0x00]).1
      = [AacOut.audio [0xFF, 0xF1, 0x50, 0x00, 0x00, 0xE0, 0x00] 0 0]
  ∧ (aacPush initAac [0xFF, 0xF1]).2.everything = [0xFF, 0xF1]
  ∧ (aacPush (aacPush initAac [0xFF, 0xF1]).2 [0x50, 0x00, 0x00, 0xE0, 0x00]).1 = []
  ∧ (aacPush (aacPush initAac [0xFF, 0xF1]).2
      [0x50, 0x00, 0x00, 0xE0, 0x00]).2.everything = [0xE0, 0x00] := by
  refine ⟨by decide, by decide, by decide, by decide⟩

/-! ### C9: `reset` across the stages -/

/-- `ElementaryStream.reset` (src/unnamed/part_002, lines 495–501): empties
the video and audio fragment buffers and emits `reset`.  The timed-metadata
buffer is not touched by the source. -/
def esReset (st : EsState) : List StageEvent × EsState :=
  ([StageEvent.reset],
   { st with video := emptyEsBuffer, audio := emptyEsBuffer })

/-- `TimestampRolloverStream.reset`: `discontinuity()` plus a `reset` event. -/
def rolloverReset (st : RolloverState) : List StageEvent × RolloverState :=
  ([StageEvent.reset], rolloverDiscontinuity st)

/-- **C9 (counterexample).** `ElementaryStream.reset` does not empty the
timed-metadata buffer: resetting a state holding a 3-byte timed-metadata
fragment leaves that buffer's size at 3, not 0. -/
theorem esReset_keeps_timed_metadata :
    ((esReset ⟨emptyEsBuffer, emptyEsBuffer, ⟨[(5, [1, 2, 3])], 3⟩, none⟩).2).timedMetadata.size
      = 3
  ∧ (3 : Nat) ≠ 0 := ⟨rfl, by decide⟩

/-- **C9 (amended).** On `reset()`: `ElementaryStream` empties its video and
audio PES fragment buffers (data cleared, size 0) and emits a `reset` event,
but leaves its timed-metadata buffer untouched; `TimestampRolloverStream`
clears its reference DTS and last DTS; `AdtsStream` clears its rolling byte
buffer; each emits a `reset` event. -/
theorem stage_reset_behaviour :
    (∀ st : EsState,
        (esReset st).2.video.size = 0 ∧ (esReset st).2.video.data = []
      ∧ (esReset st).2.audio.size = 0 ∧ (esReset st).2.audio.data = []
      ∧ (esReset st).2.timedMetadata = st.timedMetadata
      ∧ (esReset st).1 = [StageEvent.reset])
  ∧ (∀ st : RolloverState,
        (rolloverReset st).2.referenceDTS = none
      ∧ (rolloverReset st).2.lastDTS = none
      ∧ (rolloverReset st).1 = [StageEvent.reset])
  ∧ (∀ st : AdtsState,
        (adtsReset st).2.buffer = none
      ∧ (adtsReset st).2.frameNum = st.frameNum
      ∧ (adtsReset st).1 = [StageEvent.reset]) :=
  ⟨fun _ => ⟨rfl, rfl, rfl, rfl, rfl, rfl⟩,
   fun _ => ⟨rfl, rfl, rfl⟩,
   fun _ => ⟨rfl, rfl, rfl⟩⟩

/-! ### VideoSegmentStream (src/lib/partial/transmuxer.js, lines 403–595)

Buffers H.264 NAL units and, on `flush`/`partialFlush`, groups them into
frames and GOPs and emits one `moof`+`mdat` pair per emitted frame.  The
frame/GOP grouping helpers live in `lib/mp4/frame-utils` (not under src/) and
are modelled from the spec (§4.9): frames are delimited by access-unit
delimiters, a frame is a keyframe when it contains an IDR NAL (type 5), GOPs
are delimited by keyframes, and the single sample of each emitted pair has
`sample_is_non_sync_sample` 0 for a keyframe and 1 otherwise.  Track/config
bookkeeping, byte payloads, timestamps and sequence numbers do not influence
which frames are emitted or their sample flags and are omitted. -/

inductive NalUnitType where
  | accessUnitDelimiter
  | idrSlice
  | nonIdrSlice
  | seqParameterSet
  | picParameterSet
  | sei
  | other
deriving DecidableEq

structure NalUnit where
  nalUnitType : NalUnitType
deriving DecidableEq

/-- Modelled from the spec (§4.9 step 2): a frame is a keyframe when any
contained NAL is an IDR (type 5). -/
def frameKeyFrame (f : List NalUnit) : Bool :=
  f.any (fun n => n.nalUnitType = NalUnitType.idrSlice)

/-- Modelled from the spec (§4.9 steps 1–2): `groupNalsIntoFrames` of
`lib/mp4/frame-utils` — every access-unit delimiter starts a new frame;
the running frame is emitted when nonempty. -/
def groupNalsGo (currentFrame : List NalUnit) :
    List NalUnit → List (List NalUnit)
  | [] => if currentFrame.length ≠ 0 then [currentFrame] else []
  | n :: rest =>
    if n.nalUnitType = NalUnitType.accessUnitDelimiter then
      (if currentFrame.length ≠ 0 then [currentFrame] else [])
        ++ groupNalsGo [n] rest
    else
      groupNalsGo (currentFrame ++ [n]) rest

def groupNalsIntoFrames (nals : List NalUnit) : List (List NalUnit) :=
  groupNalsGo [] nals

/-- Modelled from the spec (§4.9 step 4): `groupFramesIntoGops` — every
keyframe starts a new GOP; frames before the first keyframe form a leading
GOP. -/
def groupFramesGo (currentGop : List (List NalUnit)) :
    List (List NalUnit) → List (List (List NalUnit))
  | [] => if currentGop.length ≠ 0 then [currentGop] else []
  | f :: rest =>
    if frameKeyFrame f then
      (if currentGop.length ≠ 0 then [currentGop] else [])
        ++ groupFramesGo [f] rest
    else
      groupFramesGo (currentGop ++ [f]) rest

def groupFramesIntoGops (frames : List (List NalUnit)) :
    List (List (List NalUnit)) :=
  groupFramesGo [] frames

/-- `gops[0][0].keyFrame` of the source (false when out of range). -/
def firstFrameKey (gops : List (List (List NalUnit))) : Bool :=
  match gops with
  | (f :: _) :: _ => frameKeyFrame f
  | _ => false

/-- Modelled from the spec (§4.9 step 4, §7): `extendFirstKeyFrame` — when
the leading GOP does not start with a keyframe but a later (keyframe-led) GOP
exists, the leading GOP is dropped (its time span is absorbed by the next
keyframe; timing is not modelled). -/
def extendFirstKeyFrame (gops : List (List (List NalUnit))) :
    List (List (List NalUnit)) :=
  match gops with
  | g :: g2 :: rest =>
    if ¬ firstFrameKey (g :: g2 :: rest) then g2 :: rest else g :: g2 :: rest
  | other => other

/-- One emitted `moof`+`mdat` pair: the `sample_is_non_sync_sample` flag of
its first (and only) sample — modelled from the spec (§4.9 step 7):
0 for an IDR-containing frame, 1 otherwise. -/
structure EmittedPair where
  sampleIsNonSyncSample : Nat
deriving DecidableEq

def framePair (f : List NalUnit) : EmittedPair :=
  ⟨if frameKeyFrame f then 0 else 1⟩

structure VssState where
  nalUnits : List NalUnit
  frameCache : List NalUnit
  ensureNextFrameIsKeyFrame : Bool
deriving DecidableEq

def initVss : VssState := ⟨[], [], true⟩

/-- `VideoSegmentStream.processNals_(cacheLastFrame)`. -/
def processNals (st : VssState) (cacheLastFrame : Bool) :
    List EmittedPair × VssState :=
  let nals := (st.frameCache ++ st.nalUnits).dropWhile
    (fun n => n.nalUnitType ≠ NalUnitType.accessUnitDelimiter)
  if nals.length = 0 then ([], { st with nalUnits := nals })
  else
    let frames := groupNalsIntoFrames nals
    if frames.length = 0 then ([], { st with nalUnits := nals })
    else
      let newCache := frames.getLastD []
      let frames1 := if cacheLastFrame then frames.dropLast else frames
      if frames1.length = 0 then
        ([], { st with nalUnits := [], frameCache := newCache })
      else
        if st.ensureNextFrameIsKeyFrame then
          let gops := groupFramesIntoGops frames1
          if firstFrameKey gops then
            (frames1.map framePair,
             { nalUnits := [], frameCache := newCache,
               ensureNextFrameIsKeyFrame := false })
          else
            let gops2 := extendFirstKeyFrame gops
            if firstFrameKey gops2 then
              ((gops2.flatten).map framePair,
               { nalUnits := [], frameCache := newCache,
                 ensureNextFrameIsKeyFrame := false })
            else
              ([],
               { st with
                  nalUnits := frames1.flatten ++ newCache
                  frameCache := [] })
        else
          (frames1.map framePair,
           { st with nalUnits := [], frameCache := newCache })

inductive VssOp where
  | push (n : NalUnit)
  | flushOp
  | partialFlushOp
  | resetOp
deriving DecidableEq

/-- One lifecycle step of `VideoSegmentStream`: `push` buffers the NAL;
`flush` runs `processNals_(false)`; `partialFlush` runs
`processNals_(true)`; `reset` discards the caches and re-arms the keyframe
requirement. -/
def vssStep (st : VssState) : VssOp → List EmittedPair × VssState
  | VssOp.push n => ([], { st with nalUnits := st.nalUnits ++ [n] })
  | VssOp.flushOp => processNals st false
  | VssOp.partialFlushOp => processNals st true
  | VssOp.resetOp =>
    ([], { nalUnits := [], frameCache := [], ensureNextFrameIsKeyFrame := true })

def vssRun (st : VssState) : List VssOp → List EmittedPair × VssState
  | [] => ([], st)
  | op :: ops =>
    ((vssStep st op).1 ++ (vssRun (vssStep st op).2 ops).1,
     (vssRun (vssStep st op).2 ops).2)

theorem groupFramesGo_shape (l : List (List NalUnit)) :
    ∀ cur : List (List NalUnit), cur ≠ [] →
      ∃ t gs, groupFramesGo cur l = (cur ++ t) :: gs := by
  induction l with
  | nil =>
    intro cur h
    refine ⟨[], [], ?_⟩
    rw [groupFramesGo, if_pos (by simpa using h)]
    simp
  | cons f rest ih =>
    intro cur h
    by_cases hk : frameKeyFrame f
    · refine ⟨[], groupFramesGo [f] rest, ?_⟩
      rw [groupFramesGo, if_pos hk, if_pos (by simpa using h)]
      simp
    · obtain ⟨t, gs, hgo⟩ := ih (cur ++ [f]) (by simp)
      refine ⟨[f] ++ t, gs, ?_⟩
      rw [groupFramesGo, if_neg hk, hgo, List.append_assoc]

theorem groupFramesIntoGops_cons (f : List NalUnit) (r : List (List NalUnit)) :
    ∃ t gs, groupFramesIntoGops (f :: r) = (f :: t) :: gs := by
  obtain ⟨t, gs, h⟩ := groupFramesGo_shape r [f] (by simp)
  unfold groupFramesIntoGops
  by_cases hk : frameKeyFrame f
  · rw [groupFramesGo, if_pos hk]
    exact ⟨t, gs, by simpa using h⟩
  · rw [groupFramesGo, if_neg hk]
    exact ⟨t, gs, by simpa using h⟩

/-- While `ensureNextFrameIsKeyFrame` is set, `processNals_` either emits
nothing (and keeps the flag set), or the first emitted pair's sample is a
sync sample (flag 0). -/
theorem processNals_first_key (st : VssState) (c : Bool)
    (h : st.ensureNextFrameIsKeyFrame = true) :
    ((processNals st c).1 = []
        ∧ (processNals st c).2.ensureNextFrameIsKeyFrame = true)
    ∨ ∃ p rest, (processNals st c).1 = p :: rest
        ∧ p.sampleIsNonSyncSample = 0 := by
  unfold processNals
  by_cases h0 : ((st.frameCache ++ st.nalUnits).dropWhile
      (fun n => n.nalUnitType ≠ NalUnitType.accessUnitDelimiter)).length = 0
  · rw [if_pos h0]
    exact Or.inl ⟨rfl, h⟩
  · rw [if_neg h0]
    by_cases h1 : (groupNalsIntoFrames ((st.frameCache ++ st.nalUnits).dropWhile
        (fun n => n.nalUnitType ≠ NalUnitType.accessUnitDelimiter))).length = 0
    · rw [if_pos h1]
      exact Or.inl ⟨rfl, h⟩
    · rw [if_neg h1]
      generalize hfr : groupNalsIntoFrames ((st.frameCache ++ st.nalUnits).dropWhile
        (fun n => n.nalUnitType ≠ NalUnitType.accessUnitDelimiter)) = frames at h1
      by_cases h2 : (if c then frames.dropLast else frames).length = 0
      · rw [if_pos h2]
        exact Or.inl ⟨rfl, h⟩
      · rw [if_neg h2]
        rw [if_pos h]
        generalize hfr1 : (if c then frames.dropLast else frames) = frames1 at h2
        obtain ⟨f, r, hcons⟩ : ∃ f r, frames1 = f :: r := by
          cases frames1 with
          | nil => simp at h2
          | cons f r => exact ⟨f, r, rfl⟩
        subst hcons
        obtain ⟨t, gs, hshape⟩ := groupFramesIntoGops_cons f r
        rw [hshape]
        by_cases hk : firstFrameKey ((f :: t) :: gs)
        · rw [if_pos hk]
          refine Or.inr ⟨framePair f, r.map framePair, rfl, ?_⟩
          have hkf : frameKeyFrame f = true := hk
          unfold framePair
          rw [if_pos hkf]
        · rw [if_neg hk]
          have hkf : ¬ frameKeyFrame f = true := hk
          cases gs with
          | nil =>
            have hex : extendFirstKeyFrame [(f :: t)] = [(f :: t)] := rfl
            rw [hex, if_neg hk]
            exact Or.inl ⟨rfl, h⟩
          | cons g2 rest2 =>
            have hex : extendFirstKeyFrame ((f :: t) :: g2 :: rest2)
                = g2 :: rest2 := by
              show (if ¬ firstFrameKey ((f :: t) :: g2 :: rest2) = true
                  then g2 :: rest2 else (f :: t) :: g2 :: rest2) = g2 :: rest2
              rw [if_pos hk]
            rw [hex]
            by_cases hk2 : firstFrameKey (g2 :: rest2)
            · rw [if_pos hk2]
              cases g2 with
              | nil => simp [firstFrameKey] at hk2
              | cons f2 t2 =>
                have hkf2 : frameKeyFrame f2 = true := hk2
                refine Or.inr ⟨framePair f2,
                  (t2 ++ (rest2.flatten)).map framePair, ?_, ?_⟩
                · rw [List.flatten_cons, List.cons_append, List.map_cons]
                · unfold framePair
                  rw [if_pos hkf2]
            · rw [if_neg hk2]
              exact Or.inl ⟨rfl, h⟩

/-- **C1 (amended).** While `ensureNextFrameIsKeyFrame` is set — which holds
after construction and after every `reset()` — no `moof`+`mdat` pair is
emitted until the first frame of an emitted group is a keyframe, so the
first pair emitted after construction and after every reset has
`sample_is_non_sync_sample = 0`; non-keyframe data arriving earlier is held.
Once the flag clears, later pairs may begin with non-keyframes (see the
counterexample). -/
theorem video_first_pair_keyframe :
    (∀ (st : VssState) (ops : List VssOp),
        st.ensureNextFrameIsKeyFrame = true →
        ∀ p ∈ (vssRun st ops).1.head?, p.sampleIsNonSyncSample = 0)
  ∧ initVss.ensureNextFrameIsKeyFrame = true
  ∧ (∀ st, (vssStep st VssOp.resetOp).2.ensureNextFrameIsKeyFrame = true) := by
  refine ⟨?_, rfl, fun st => rfl⟩
  intro st ops
  induction ops generalizing st with
  | nil =>
    intro _ p hp
    simp [vssRun] at hp
  | cons op rest ih =>
    intro h p hp
    change p ∈ ((vssStep st op).1 ++ (vssRun (vssStep st op).2 rest).1).head? at hp
    cases op with
    | push n =>
      exact ih { st with nalUnits := st.nalUnits ++ [n] } h p
        (by simpa [vssStep] using hp)
    | flushOp =>
      rcases processNals_first_key st false h with ⟨he, hens⟩ | ⟨q, qrest, hq, hflag⟩
      · change p ∈ ((processNals st false).1 ++ _).head? at hp
        rw [he] at hp
        exact ih _ hens p (by simpa using hp)
      · change p ∈ ((processNals st false).1 ++ _).head? at hp
        rw [hq] at hp
        simp at hp
        rw [← hp]
        exact hflag
    | partialFlushOp =>
      rcases processNals_first_key st true h with ⟨he, hens⟩ | ⟨q, qrest, hq, hflag⟩
      · change p ∈ ((processNals st true).1 ++ _).head? at hp
        rw [he] at hp
        exact ih _ hens p (by simpa using hp)
      · change p ∈ ((processNals st true).1 ++ _).head? at hp
        rw [hq] at hp
        simp at hp
        rw [← hp]
        exact hflag
    | resetOp =>
      exact ih _ rfl p (by simpa [vssStep] using hp)

/-- Witness for the amended C1: an AUD+IDR frame pushed into a fresh stream
and flushed produces exactly one pair, whose sample is a sync sample. -/
theorem video_first_pair_keyframe_witness :
    initVss.ensureNextFrameIsKeyFrame = true
  ∧ (vssRun initVss [VssOp.push ⟨NalUnitType.accessUnitDelimiter⟩,
      VssOp.push ⟨NalUnitType.idrSlice⟩, VssOp.flushOp]).1 = [⟨0⟩]
  ∧ ∀ p ∈ (vssRun initVss [VssOp.push ⟨NalUnitType.accessUnitDelimiter⟩,
      VssOp.push ⟨NalUnitType.idrSlice⟩, VssOp.flushOp]).1.head?,
      p.sampleIsNonSyncSample = 0 :=
  ⟨rfl, by decide, video_first_pair_keyframe.1 initVss _ rfl⟩

/-- **C1 (counterexample).** Not every emitted `moof`+`mdat` pair begins with
a keyframe: after the first keyframe-led group clears
`ensureNextFrameIsKeyFrame`, each subsequent frame gets its own pair —
pushing AUD+IDR followed by AUD+non-IDR and flushing emits two pairs, and
the second pair's sample has `sample_is_non_sync_sample = 1`. -/
theorem video_pair_counterexample :
    (vssRun initVss [VssOp.push ⟨NalUnitType.accessUnitDelimiter⟩,
        VssOp.push ⟨NalUnitType.idrSlice⟩,
        VssOp.push ⟨NalUnitType.accessUnitDelimiter⟩,
        VssOp.push ⟨NalUnitType.nonIdrSlice⟩, VssOp.flushOp]).1
      = [⟨0⟩, ⟨1⟩]
  ∧ (1 : Nat) ≠ 0 := ⟨by decide, by decide⟩

end MuxJs
